import Mathlib

/-!
Verification development for the project-chat library: a session-aware,
streaming agentic tool loop over an in-memory keyword index.

The development shallowly embeds the TypeScript sources:
  * `src/mcp/indexer.ts` — keyword index scoring, search and snippets;
  * `src/mcp/server.ts` (bundled in `project-context.test.ts`) — the tool
    registry (`buildTools`, `callTool`) and the `createProjectChatServer`
    closure state, including its `reindex` behaviour;
  * `src/shared/protocol.ts` and the client SSE stream parser — wire
    serialization of `ChatEvent` and its inverse;
  * `src/server/session-store.ts` — the in-memory session store;
  * `src/server/tool-loop.ts` and `src/server/messages-handler.ts` — the
    agentic tool loop driven by scripted model responses, and the
    Messages-API request handler around it.

JavaScript built-ins (string search, `slice`, `split`, `JSON.stringify` /
`JSON.parse`, `Map`) are modelled explicitly; machine integers do not
overflow in any of the modelled code paths, so `Nat`/`Int` are used
directly.  Everything is computable so that theorems can be checked on
concrete inputs by evaluation.
-/

namespace ProjectChat

/-! ## JavaScript string primitives

Models of the JavaScript built-ins the sources rely on, phrased over
`List Char` (JS strings are sequences of UTF-16 units; the sources never
split surrogate pairs, so a `Char` sequence is a faithful model). -/

/-- Model of `String.prototype.toLowerCase` (per-character lowercasing). -/
def jsToLower (s : String) : String := ⟨s.data.map Char.toLower⟩

/-- True when `pat` occurs in `hay` starting exactly at index `i`. -/
def substrAt (hay pat : List Char) (i : Nat) : Bool :=
  pat.isPrefixOf (hay.drop i)

/-- Scan indices `start, start+1, ...` (at most `fuel` of them) for the first
index satisfying `p`. -/
def scanIdx (p : Nat → Bool) : Nat → Nat → Option Nat
  | 0, _ => none
  | fuel + 1, i => if p i then some i else scanIdx p fuel (i + 1)

/-- Model of `hay.indexOf(pat, start)` for non-empty `pat`: the least index
`i ≥ start` at which `pat` occurs, scanning up to index `hay.length`. -/
def indexOfFrom (hay pat : List Char) (start : Nat) : Option Nat :=
  scanIdx (substrAt hay pat) (hay.length + 1 - start) start

/-- Model of `hay.includes(pat)` for non-empty `pat`. -/
def jsIncludes (hay pat : String) : Bool :=
  (indexOfFrom hay.data pat.data 0).isSome

/-- The occurrence-counting loop of `searchIndex` (src/mcp/indexer.ts):
`idx = -1; while ((idx = content.indexOf(term, idx + 1)) !== -1) score++`.
Each successive search restarts one character after the previous match, so
occurrences at every starting position are counted (overlaps included).
`fuel` bounds the iteration count; `hay.length + 1` always suffices. -/
def countOccAux (hay pat : List Char) : Nat → Nat → Nat
  | 0, _ => 0
  | fuel + 1, start =>
    match indexOfFrom hay pat start with
    | none => 0
    | some i => countOccAux hay pat fuel (i + 1) + 1

/-- Number of matches found by the `indexOf` loop of `searchIndex`. -/
def countOcc (hay pat : List Char) : Nat :=
  countOccAux hay pat (hay.length + 1) 0

/-- Declarative restatement used in the amended scoring claim: the number of
starting positions at which the term occurs (overlapping occurrences all
counted). -/
def occPositions (hay pat : List Char) : Nat :=
  (List.range (hay.length + 1)).countP (fun i => substrAt hay pat i)

/-- Modelled from the spec: the number of NON-overlapping occurrences of
`pat` in `hay` ("the count of non-overlapping substring occurrences of the
term"), counted greedily left to right, each match consuming its
characters.  Written only for comparison against the source's
occurrence-counting loop; the source resumes searching at `idx + 1`
instead of `idx + pat.length`. -/
def countNonOverlapAux (hay pat : List Char) : Nat → Nat → Nat
  | 0, _ => 0
  | fuel + 1, start =>
    match indexOfFrom hay pat start with
    | none => 0
    | some i => countNonOverlapAux hay pat fuel (i + pat.length) + 1

/-- Greedy non-overlapping occurrence count (the spec's wording). -/
def countNonOverlap (hay pat : List Char) : Nat :=
  countNonOverlapAux hay pat (hay.length + 1) 0

/-- Whitespace class of the regular expression `\s` (the code points the
sources can actually encounter; the full Unicode class adds exotic spaces
that never change the claims). -/
def isJsWs (c : Char) : Bool :=
  c = ' ' || c = '\n' || c = '\t' || c = '\r' ||
  c.toNat = 12 || c.toNat = 11

/-- Split into maximal non-whitespace runs: the composite
`s.split(/\s+/).filter(Boolean)` from `searchIndex` and
`extractSnippet` (splitting on whitespace runs, then dropping the empty
strings that a leading separator produces). -/
def wordsAux : List Char → List Char → List (List Char)
  | [], acc => if acc.isEmpty then [] else [acc.reverse]
  | c :: cs, acc =>
    if isJsWs c then
      if acc.isEmpty then wordsAux cs [] else acc.reverse :: wordsAux cs []
    else wordsAux cs (c :: acc)

/-- Model of `query.toLowerCase().split(/\s+/).filter(Boolean)`. -/
def queryTerms (query : String) : List String :=
  (wordsAux (jsToLower query).data []).map (fun l => ⟨l⟩)

/-- Model of `Array.prototype.slice(0, stop)` with a possibly negative
`stop`, per ECMAScript: a negative `stop` counts from the end. -/
def jsSliceTo {α : Type} (l : List α) (stop : Int) : List α :=
  if stop < 0 then l.take (l.length - (-stop).toNat) else l.take stop.toNat

/-- Model of `Array.prototype.slice(-k)`: the last `k` elements, except that
`-0` is `0`, so `k = 0` yields the whole array. -/
def jsTailSlice {α : Type} (l : List α) (k : Nat) : List α :=
  if k = 0 then l else l.drop (l.length - k)

/-- Model of `Array.prototype.slice(start, stop)` for non-negative bounds
(used by `extractSnippet` with already-clamped indices). -/
def jsSlice2 {α : Type} (l : List α) (start stop : Nat) : List α :=
  (l.drop start).take (stop - start)

/-- Model of `String.prototype.split('\n')` (and of splitting a received
SSE chunk on newlines): all separator-delimited segments, empties kept. -/
def splitOnChar (sep : Char) : List Char → List (List Char)
  | [] => [[]]
  | c :: rest =>
    match splitOnChar sep rest with
    | [] => [[c]]
    | h :: t => if c = sep then [] :: h :: t else (c :: h) :: t

/-- Lines of a string, as `content.split('\n')`. -/
def splitLines (s : String) : List String :=
  (splitOnChar '\n' s.data).map (fun l => ⟨l⟩)

/-! ## Keyword index (src/mcp/indexer.ts) -/

/-- File category tag (`'doc' | 'code'`). -/
inductive FileType where
  | doc
  | code
deriving DecidableEq

/-- An indexed file (interface `IndexedFile`). -/
structure IndexedFile where
  path : String
  content : String
  type : FileType
  searchContent : String
deriving DecidableEq

/-- Construction performed by `indexDir`:
`searchContent = content.toLowerCase()`. -/
def mkIndexedFile (path content : String) (t : FileType) : IndexedFile :=
  ⟨path, content, t, jsToLower content⟩

/-- Score contributed by one term in `searchIndex`: the `indexOf` counting
loop plus 5 bonus points when the lowercased path contains the term. -/
def termScore (f : IndexedFile) (term : String) : Nat :=
  countOcc f.searchContent.data term.data +
    (if jsIncludes (jsToLower f.path) term then 5 else 0)

/-- Total score `searchIndex` assigns to a file for a term list. -/
def scoreFile (f : IndexedFile) (terms : List String) : Nat :=
  terms.foldl (fun acc t => acc + termScore f t) 0

/-- Modelled from the spec's wording of the scoring rule, for comparison:
sum over terms of the NON-overlapping occurrence count, plus the path
bonus. -/
def claimedScore (f : IndexedFile) (terms : List String) : Nat :=
  terms.foldl
    (fun acc t =>
      acc + countNonOverlap f.searchContent.data t.data +
        (if jsIncludes (jsToLower f.path) t then 5 else 0)) 0

/-- Stable descending insertion by score: `x` is placed before the first
element whose score is not larger, so equal scores keep encounter order.
Models `Array.prototype.sort((a, b) => b.score - a.score)`, which is
specified stable. -/
def insertByScoreDesc (x : IndexedFile × Nat) :
    List (IndexedFile × Nat) → List (IndexedFile × Nat)
  | [] => [x]
  | y :: ys => if x.2 < y.2 then y :: insertByScoreDesc x ys else x :: y :: ys

/-- Stable sort, descending by score. -/
def sortByScoreDesc (l : List (IndexedFile × Nat)) : List (IndexedFile × Nat) :=
  l.foldr insertByScoreDesc []

/-- The ranked match list of `searchIndex` before the result cap is applied:
score every file, keep positive scores, sort descending (stable). -/
def rankedMatches (files : List IndexedFile) (query : String) :
    List IndexedFile :=
  let terms := queryTerms query
  if terms.isEmpty then []
  else
    (sortByScoreDesc ((files.map (fun f => (f, scoreFile f terms))).filter
      (fun s => 0 < s.2))).map (fun s => s.1)

/-- Model of `searchIndex(files, query, maxResults)`: ranked matches capped
by `slice(0, maxResults)`.  The cap is an `Int` because the source never
validates it; a negative cap reaches `slice` unchecked. -/
def searchIndex (files : List IndexedFile) (query : String)
    (maxResults : Int) : List IndexedFile :=
  let terms := queryTerms query
  if terms.isEmpty then []
  else jsSliceTo (rankedMatches files query) maxResults

/-- Model of `extractSnippet(content, query, contextLines)`: the first line
containing any query term, with `contextLines` lines of context clamped to
the file, else the opening `2 * contextLines + 1` lines. -/
def extractSnippet (content query : String) (contextLines : Nat) : String :=
  let lines := splitLines content
  let terms := queryTerms query
  match lines.findIdx? (fun line => terms.any (fun t => jsIncludes (jsToLower line) t)) with
  | some i =>
    String.intercalate "\n"
      (jsSlice2 lines (i - contextLines) (min lines.length (i + contextLines + 1)))
  | none => String.intercalate "\n" (lines.take (contextLines * 2 + 1))

/-! ## Tool registry and MCP server (src/mcp/server.ts, src/mcp/types.ts)

Tool arguments (`Record<string, unknown>`) are modelled as association
lists of string-valued fields; every access the handlers make is to a
string-typed argument.  A handler that would throw in JavaScript (the
`TypeError` when a required string argument is `undefined`) is modelled by
`Except.error` carrying the message text. -/

/-- Tool-call arguments: `Record<string, unknown>` restricted to the
string fields the handlers read. -/
abbrev Args : Type := List (String × String)

/-- Field lookup on an argument record. -/
def lookupArg (args : Args) (k : String) : Option String :=
  List.lookup k args

/-- Result of a tool call (interface `ToolResult`): the text of each
`{type: 'text'}` content block, and the optional `isError` flag (absent in
JavaScript is `none`). -/
structure ToolResult where
  content : List String
  isError : Option Bool := none
deriving DecidableEq

/-- Helper `textResult(text)` from src/mcp/server.ts: single text block, no
`isError` field. -/
def textResult (text : String) : ToolResult := ⟨[text], none⟩

/-- A registered tool (interface `ProjectChatTool`); the JSON input schema
carries no behaviour and is omitted. -/
structure Tool where
  name : String
  description : String
  handler : Args → Except String ToolResult

/-- Message of the JavaScript `TypeError` raised when a required string
argument is absent and `toLowerCase` is invoked on `undefined` inside
`searchIndex` (text abridged; only its propagation matters). -/
def undefinedArgMsg : String := "Cannot read properties of undefined"

/-- Handler of `search_docs`. -/
def searchDocsHandler (files : List IndexedFile) (args : Args) :
    Except String ToolResult :=
  let docFiles := files.filter (fun f => f.type = FileType.doc)
  if docFiles.isEmpty then .ok (textResult "No documentation files indexed.")
  else
    match lookupArg args "query" with
    | none => .error undefinedArgMsg
    | some q =>
      let results := searchIndex docFiles q 5
      if results.isEmpty then
        .ok (textResult ("No doc matches for: \x22" ++ q ++ "\x22"))
      else
        .ok (textResult (String.intercalate "\n\n" (results.map (fun f =>
          "### " ++ f.path ++ "\n```\n" ++ extractSnippet f.content q 3 ++ "\n```"))))

/-- Handler of `search_code` (wider snippet radius). -/
def searchCodeHandler (files : List IndexedFile) (args : Args) :
    Except String ToolResult :=
  let codeFiles := files.filter (fun f => f.type = FileType.code)
  if codeFiles.isEmpty then .ok (textResult "No source code files indexed.")
  else
    match lookupArg args "query" with
    | none => .error undefinedArgMsg
    | some q =>
      let results := searchIndex codeFiles q 5
      if results.isEmpty then
        .ok (textResult ("No code matches for: \x22" ++ q ++ "\x22"))
      else
        .ok (textResult (String.intercalate "\n\n" (results.map (fun f =>
          "### " ++ f.path ++ "\n```\n" ++ extractSnippet f.content q 5 ++ "\n```"))))

/-- The candidate list shown by `read_file` on a miss:
`files.slice(0, 20).map(f => - f.path).join('\n')`. -/
def candidateList (files : List IndexedFile) : String :=
  String.intercalate "\n" ((files.take 20).map (fun f => "- " ++ f.path))

/-- Miss message of `read_file`. -/
def fileNotFoundText (files : List IndexedFile) (p : String) : String :=
  "File not found: " ++ p ++ "\n\nAvailable:\n" ++ candidateList files

/-- Handler of `read_file`: exact relative-path lookup; an absent `path`
argument is JavaScript `undefined`, which matches no file and is rendered
as the literal text `undefined` in the miss message. -/
def readFileHandler (files : List IndexedFile) (args : Args) :
    Except String ToolResult :=
  match lookupArg args "path" with
  | none => .ok (textResult (fileNotFoundText files "undefined"))
  | some p =>
    match files.find? (fun f => f.path = p) with
    | none => .ok (textResult (fileNotFoundText files p))
    | some f =>
      .ok (textResult ("# " ++ f.path ++ "\n\n```\n" ++ f.content ++ "\n```"))

/-- Handler of `list_files`: optional substring filter (JavaScript
truthiness: an empty filter string means no filtering), grouped by
category. -/
def listFilesHandler (files : List IndexedFile) (args : Args) :
    Except String ToolResult :=
  let filt := lookupArg args "filter"
  let filterTruthy := match filt with
    | some f => !f.isEmpty
    | none => false
  let matching := match filt with
    | some f =>
      if f.isEmpty then files
      else files.filter (fun x => jsIncludes (jsToLower x.path) (jsToLower f))
    | none => files
  if matching.isEmpty then
    .ok (textResult (match filt with
      | some f => if filterTruthy then "No files matching: \x22" ++ f ++ "\x22"
                  else "No files indexed."
      | none => "No files indexed."))
  else
    let docs := (matching.filter (fun f => f.type = FileType.doc)).map (fun f => f.path)
    let code := (matching.filter (fun f => f.type = FileType.code)).map (fun f => f.path)
    let parts :=
      (if docs.isEmpty then [] else
        ["## Documentation (" ++ toString docs.length ++ ")\n" ++
          String.intercalate "\n" (docs.map (fun p => "- " ++ p))]) ++
      (if code.isEmpty then [] else
        ["## Source Code (" ++ toString code.length ++ ")\n" ++
          String.intercalate "\n" (code.map (fun p => "- " ++ p))])
    .ok (textResult (String.intercalate "\n\n" parts))

/-- Handler of `get_project_summary`: counts, README (truncated at 3000
characters), optional API-spec preview (first 50 lines). -/
def projectSummaryHandler (files : List IndexedFile)
    (apiSpecContent : Option String) (_args : Args) :
    Except String ToolResult :=
  let readme := files.find? (fun f => jsToLower f.path = "readme.md")
  let docCount := (files.filter (fun f => f.type = FileType.doc)).length
  let codeCount := (files.filter (fun f => f.type = FileType.code)).length
  let parts := ["**Indexed:** " ++ toString files.length ++ " files (" ++
      toString docCount ++ " docs, " ++ toString codeCount ++ " code)"] ++
    (match readme with
     | some r =>
       ["## README\n\n" ++
         (if 3000 < r.content.length
          then r.content.take 3000 ++ "\n\n... (truncated)"
          else r.content)]
     | none => []) ++
    (match apiSpecContent with
     | some s =>
       ["## API Spec (preview)\n```\n" ++
         String.intercalate "\n" ((splitLines s).take 50) ++ "\n```"]
     | none => [])
  .ok (textResult (String.intercalate "\n\n" parts))

/-- The five built-in tools of `buildTools(files, apiSpecContent)`, in
declaration order. -/
def buildTools (files : List IndexedFile) (apiSpecContent : Option String) :
    List Tool :=
  [⟨"search_docs", "Search project documentation for relevant content.",
    searchDocsHandler files⟩,
   ⟨"search_code", "Search project source code.",
    searchCodeHandler files⟩,
   ⟨"read_file", "Read the full contents of a specific indexed file.",
    readFileHandler files⟩,
   ⟨"list_files", "List all indexed project files, optionally filtered.",
    listFilesHandler files⟩,
   ⟨"get_project_summary", "Get README content, file count, and structure overview.",
    projectSummaryHandler files apiSpecContent⟩]

/-- Model of `callTool(toolName, args)`: exact-name lookup; unknown names
and handler exceptions are converted to error-flagged results.  The model
is a total function — the JavaScript method never throws. -/
def callTool (tools : List Tool) (name : String) (args : Args) : ToolResult :=
  match tools.find? (fun t => t.name = name) with
  | none => ⟨["Unknown tool: " ++ name], some true⟩
  | some t =>
    match t.handler args with
    | .ok r => r
    | .error msg => ⟨["Tool error: " ++ msg], some true⟩

/-! ### Closure state of `createProjectChatServer`

In the source, `doIndex()` REASSIGNS the closure variable `files` to a
fresh array and `buildTools(files, apiSpecContent)` is called once at
construction, so the tool handlers capture the array built by the first
`doIndex()` while the `fileCount` getter reads the closure variable.
`toolFiles` models the captured array, `files` the closure variable that
`reindex()` rebinds.  File-system scans are supplied as the `IndexedFile`
lists that `indexDir` would produce. -/

structure ServerState where
  files : List IndexedFile
  toolFiles : List IndexedFile
  apiSpecContent : Option String
  customTools : List Tool

/-- Construction: the initial `doIndex()` result is captured both by the
closure variable and by the tools built from it. -/
def createServer (scan : List IndexedFile) (apiSpecContent : Option String)
    (customTools : List Tool) : ServerState :=
  ⟨scan, scan, apiSpecContent, customTools⟩

/-- Model of `reindex()`: `doIndex()` rebinds the closure variable `files`
to the fresh scan; the array captured by the tool handlers is unchanged. -/
def ServerState.reindex (st : ServerState) (newScan : List IndexedFile) :
    ServerState :=
  { st with files := newScan }

/-- The `fileCount` getter reads the closure variable. -/
def ServerState.fileCount (st : ServerState) : Nat := st.files.length

/-- The tool list (`allTools = [...builtinTools, ...customTools]`), over
the captured array. -/
def ServerState.allTools (st : ServerState) : List Tool :=
  buildTools st.toolFiles st.apiSpecContent ++ st.customTools

/-- The server's `callTool`. -/
def ServerState.callTool (st : ServerState) (name : String) (args : Args) :
    ToolResult :=
  ProjectChat.callTool st.allTools name args

/-! ## Protocol layer (src/shared/protocol.ts and the client SSE parser)

`ChatEvent` payloads are JSON objects whose fields are strings, except the
optional `input` of `tool_use_start`, which is an object; it is modelled
as a flat string-field object (the shape every payload in the sources
has).  `JSON.stringify` is modelled by `encPayload` (insertion-ordered
fields, standard string escaping); `JSON.parse` is modelled by
`parseDataJson` on the single-line object texts `serializeSSE` emits. -/

/-- Named characters, used instead of repeated literals. -/
def quoteC : Char := Char.ofNat 34

/-- Backslash. -/
def bslashC : Char := Char.ofNat 92

/-- Opening curly brace. -/
def lbraceC : Char := Char.ofNat 123

/-- Closing curly brace. -/
def rbraceC : Char := Char.ofNat 125

/-- A JSON value as it occurs in a ChatEvent payload: a string, or a flat
object with string fields. -/
inductive JVal where
  | s (v : String)
  | o (fields : List (String × String))
deriving DecidableEq

/-- A ChatEvent `data` payload: a JSON object, fields in insertion order. -/
abbrev Payload := List (String × JVal)

/-- The `ChatEvent` tagged union of src/shared/protocol.ts. -/
inductive ChatEvent where
  | session (sessionId : String)
  | content_delta (text : String)
  | tool_use_start (id tool : String) (input : Option (List (String × String)))
  | tool_use_end (id tool : String)
  | thinking_start
  | thinking_end
  | message_end (id : String)
  | done (sessionId : String)
  | error (message : String) (code : Option String)
deriving DecidableEq

/-- The `event` discriminator string of a ChatEvent. -/
def eventTag : ChatEvent → String
  | .session _ => "session"
  | .content_delta _ => "content_delta"
  | .tool_use_start _ _ _ => "tool_use_start"
  | .tool_use_end _ _ => "tool_use_end"
  | .thinking_start => "thinking_start"
  | .thinking_end => "thinking_end"
  | .message_end _ => "message_end"
  | .done _ => "done"
  | .error _ _ => "error"

/-- The `data` payload of a ChatEvent, with fields in the insertion order
of the source's object literals; absent optional fields are dropped, as
`JSON.stringify` drops `undefined`-valued fields. -/
def eventPayload : ChatEvent → Payload
  | .session sid => [("sessionId", .s sid)]
  | .content_delta t => [("text", .s t)]
  | .tool_use_start i t inp =>
    [("id", .s i), ("tool", .s t)] ++
      (match inp with
       | none => []
       | some ob => [("input", .o ob)])
  | .tool_use_end i t => [("id", .s i), ("tool", .s t)]
  | .thinking_start => []
  | .thinking_end => []
  | .message_end i => [("id", .s i)]
  | .done sid => [("sessionId", .s sid)]
  | .error m c =>
    [("message", .s m)] ++
      (match c with
       | none => []
       | some cc => [("code", .s cc)])

/-- Lowercase hexadecimal digit for `n < 16` (used by the `\u00XX`
escapes `JSON.stringify` emits for control characters). -/
def hexDigitChar (n : Nat) : Char :=
  "0123456789abcdef".data.getD n (Char.ofNat 48)

/-- JSON escaping of one character, as `JSON.stringify` performs it:
quote, backslash and the named control escapes, `\u00XX` for the
remaining control characters, everything else literal. -/
def escChar (c : Char) : List Char :=
  if c = quoteC then [bslashC, quoteC]
  else if c = bslashC then [bslashC, bslashC]
  else if c = '\n' then [bslashC, 'n']
  else if c = '\r' then [bslashC, 'r']
  else if c = '\t' then [bslashC, 't']
  else if c.toNat = 8 then [bslashC, 'b']
  else if c.toNat = 12 then [bslashC, 'f']
  else if c.toNat < 32 then
    [bslashC, 'u', Char.ofNat 48, Char.ofNat 48,
      hexDigitChar (c.toNat / 16), hexDigitChar (c.toNat % 16)]
  else [c]

/-- JSON escaping of a character sequence. -/
def encStrBody : List Char → List Char
  | [] => []
  | c :: cs => escChar c ++ encStrBody cs

/-- A JSON string literal: quote, escaped body, quote. -/
def encStr (s : String) : List Char :=
  quoteC :: encStrBody s.data ++ [quoteC]

/-- Members of a flat string-field object, comma-separated. -/
def encMembersStr : List (String × String) → List Char
  | [] => []
  | [(k, v)] => encStr k ++ ':' :: encStr v
  | (k, v) :: rest => encStr k ++ ':' :: encStr v ++ ',' :: encMembersStr rest

/-- A JSON value. -/
def encJVal : JVal → List Char
  | .s v => encStr v
  | .o fields => lbraceC :: encMembersStr fields ++ [rbraceC]

/-- Members of a payload object, comma-separated. -/
def encPayloadMembers : Payload → List Char
  | [] => []
  | [(k, v)] => encStr k ++ ':' :: encJVal v
  | (k, v) :: rest => encStr k ++ ':' :: encJVal v ++ ',' :: encPayloadMembers rest

/-- Model of `JSON.stringify(event.data)`. -/
def encPayload (p : Payload) : List Char :=
  lbraceC :: encPayloadMembers p ++ [rbraceC]

/-- Model of `serializeSSE(event)` from src/shared/protocol.ts:
two header lines and a blank line. -/
def serializeSSE (e : ChatEvent) : String :=
  ⟨"event: ".data ++ (eventTag e).data ++ '\n' ::
    "data: ".data ++ encPayload (eventPayload e) ++ ['\n', '\n']⟩

/-- Value of a hexadecimal digit character. -/
def hexVal (c : Char) : Option Nat :=
  if '0' ≤ c ∧ c ≤ '9' then some (c.toNat - 48)
  else if 'a' ≤ c ∧ c ≤ 'f' then some (c.toNat - 87)
  else if 'A' ≤ c ∧ c ≤ 'F' then some (c.toNat - 55)
  else none

/-- Decoding of a single-character JSON escape. -/
def unescape1 (c : Char) : Option Char :=
  if c = quoteC then some quoteC
  else if c = bslashC then some bslashC
  else if c = '/' then some '/'
  else if c = 'n' then some '\n'
  else if c = 'r' then some '\r'
  else if c = 't' then some '\t'
  else if c = 'b' then some (Char.ofNat 8)
  else if c = 'f' then some (Char.ofNat 12)
  else none

/-- Body of a JSON string literal after the opening quote: the decoded
characters and the remainder after the closing quote.  `fuel` bounds the
number of decoded characters; the input length plus one always suffices. -/
def parseStrBody : Nat → List Char → Option (List Char × List Char)
  | 0, _ => none
  | _ + 1, [] => none
  | fuel + 1, c :: rest =>
    if c = quoteC then some ([], rest)
    else if c = bslashC then
      match rest with
      | [] => none
      | e :: rest2 =>
        if e = 'u' then
          match rest2 with
          | h1 :: h2 :: h3 :: h4 :: rest3 =>
            match hexVal h1, hexVal h2, hexVal h3, hexVal h4 with
            | some n1, some n2, some n3, some n4 =>
              (parseStrBody fuel rest3).map (fun pr =>
                (Char.ofNat (((n1 * 16 + n2) * 16 + n3) * 16 + n4) :: pr.1, pr.2))
            | _, _, _, _ => none
          | _ => none
        else
          match unescape1 e with
          | some d => (parseStrBody fuel rest2).map (fun pr => (d :: pr.1, pr.2))
          | none => none
    else if c.toNat < 32 then none
    else (parseStrBody fuel rest).map (fun pr => (c :: pr.1, pr.2))

/-- A quoted JSON string: opening quote, escaped body, closing quote. -/
def parseKeyStr (cs : List Char) : Option (String × List Char) :=
  match cs with
  | [] => none
  | x :: cs1 =>
    if x = quoteC then
      (parseStrBody (cs1.length + 1) cs1).map (fun pr => (String.mk pr.1, pr.2))
    else none

/-- Consume one expected character. -/
def expectCh (c : Char) (cs : List Char) : Option (List Char) :=
  match cs with
  | [] => none
  | x :: rest => if x = c then some rest else none

/-- Members of a flat string-field object, up to and including the closing
brace; returns the fields and the remainder.  `fuel` bounds the member
count. -/
def parseMembersStr : Nat → List Char → Option (List (String × String) × List Char)
  | 0, _ => none
  | fuel + 1, cs =>
    match parseKeyStr cs with
    | none => none
    | some (k, cs2) =>
      match expectCh ':' cs2 with
      | none => none
      | some cs3 =>
        match parseKeyStr cs3 with
        | none => none
        | some (v, cs4) =>
          match cs4 with
          | [] => none
          | x :: cs5 =>
            if x = ',' then
              (parseMembersStr fuel cs5).map (fun pr => ((k, v) :: pr.1, pr.2))
            else if x = rbraceC then some ([(k, v)], cs5)
            else none

/-- One payload value: a JSON string or a flat object. -/
def parseFlatVal (cs : List Char) : Option (JVal × List Char) :=
  match cs with
  | [] => none
  | x :: cs1 =>
    if x = quoteC then
      (parseStrBody (cs1.length + 1) cs1).map (fun pr =>
        (JVal.s (String.mk pr.1), pr.2))
    else if x = lbraceC then
      match cs1 with
      | [] => none
      | y :: _ =>
        if y = rbraceC then some (JVal.o [], cs1.tail)
        else (parseMembersStr (cs1.length + 1) cs1).map (fun pr =>
          (JVal.o pr.1, pr.2))
    else none

/-- Members of a payload object, up to and including the closing brace. -/
def parsePayloadMembers : Nat → List Char → Option (Payload × List Char)
  | 0, _ => none
  | fuel + 1, cs =>
    match parseKeyStr cs with
    | none => none
    | some (k, cs2) =>
      match expectCh ':' cs2 with
      | none => none
      | some cs3 =>
        match parseFlatVal cs3 with
        | none => none
        | some (v, cs4) =>
          match cs4 with
          | [] => none
          | x :: cs5 =>
            if x = ',' then
              (parsePayloadMembers fuel cs5).map (fun pr => ((k, v) :: pr.1, pr.2))
            else if x = rbraceC then some ([(k, v)], cs5)
            else none

/-- Model of `JSON.parse` on the single-line object texts emitted by
`serializeSSE`: a full-input object of payload shape, or failure. -/
def parseDataJson (cs : List Char) : Option Payload :=
  match cs with
  | [] => none
  | x :: cs1 =>
    if x = lbraceC then
      match cs1 with
      | [] => none
      | y :: cs2 =>
        if y = rbraceC then (if cs2.isEmpty then some [] else none)
        else
          match parsePayloadMembers (cs1.length + 1) cs1 with
          | some (p, r) => if r.isEmpty then some p else none
          | none => none
    else none

/-- Model of `String.prototype.trim` (applied to the event-type field). -/
def jsTrim (l : List Char) : List Char :=
  ((l.dropWhile isJsWs).reverse.dropWhile isJsWs).reverse

/-- JavaScript truthiness of the accumulated `currentEvent`/`currentData`
string-or-null fields. -/
def truthyOpt : Option (List Char) → Bool
  | some l => !l.isEmpty
  | none => false

/-- The per-line accumulation loop of `parseSSEStream` (the client SSE
parser): recognise `event: ` and `data: ` prefixes, fire a parsed
`(type, data)` pair at each blank line once both fields are set, skip
events whose JSON fails to parse, ignore all other lines. -/
def sseFold : List (List Char) → Option (List Char) → Option (List Char) →
    List (String × Payload) → List (String × Payload)
  | [], _, _, acc => acc
  | line :: rest, curEv, curDat, acc =>
    if "event: ".data.isPrefixOf line then
      sseFold rest (some (jsTrim (line.drop 7))) curDat acc
    else if "data: ".data.isPrefixOf line then
      sseFold rest curEv (some (line.drop 6)) acc
    else if line.isEmpty && truthyOpt curEv && truthyOpt curDat then
      match curEv, curDat with
      | some ev, some dat =>
        match parseDataJson dat with
        | some p => sseFold rest none none (acc ++ [(String.mk ev, p)])
        | none => sseFold rest none none acc
      | _, _ => sseFold rest curEv curDat acc
    else sseFold rest curEv curDat acc

/-- Model of `parseSSEStream` receiving one chunk: split on newlines, keep
the trailing segment as the unconsumed buffer, and run the line loop.
Each fired event is the `(event, data)` pair handed to `onEvent`. -/
def parseSSEStream (s : String) : List (String × Payload) :=
  sseFold (splitOnChar '\n' s.data).dropLast none none []

/-! ## Tool loop (src/server/tool-loop.ts) and Messages handler
(src/server/messages-handler.ts)

The Anthropic streaming call is the loop's only external collaborator; it
is modelled as a script: the `k`-th model call returns `script k`, a
recorded stream (text deltas and tool-use block starts, in emission
order) plus the final message the SDK accumulates.  `input_json_delta`
stream events are ignored by the source and therefore absent from the
model.  Times are milliseconds since epoch as naturals. -/

/-- A content block of a completed assistant message. -/
inductive ContentBlock where
  | text (s : String)
  | toolUse (id name : String) (input : Args)
deriving DecidableEq

/-- A `tool_result` block fed back to the model. -/
structure ToolResultBlock where
  tool_use_id : String
  content : List String
  is_error : Option Bool
deriving DecidableEq

/-- A message of the running transcript (`MessageParam`). -/
inductive Message where
  | user (content : String)
  | userToolResults (results : List ToolResultBlock)
  | assistant (content : List ContentBlock)
deriving DecidableEq

/-- One event of the model's response stream that the loop reacts to. -/
inductive StreamEvent where
  | textDelta (text : String)
  | toolStart (id name : String)
deriving DecidableEq

/-- The final accumulated message of one model call. -/
structure FinalMessage where
  id : String
  content : List ContentBlock
  stop_reason : String
deriving DecidableEq

/-- One scripted model response: the stream and its final message. -/
structure ScriptedResponse where
  events : List StreamEvent
  final : FinalMessage
deriving DecidableEq

/-- A server as the loop sees it: `callTool` as a function (total, per the
dispatch contract — `callTool` never throws). -/
def ServerFun : Type := String → Args → ToolResult

/-- Model of `parseToolName`: split at the first `__`;
without a separator the server name is empty. -/
def parseToolName (name : String) : String × String :=
  match indexOfFrom name.data ['_', '_'] 0 with
  | none => ("", name)
  | some i => (⟨name.data.take i⟩, ⟨name.data.drop (i + 2)⟩)

/-- Tool dispatch inside the loop: resolve the namespaced name to a server
and call it; an unknown server yields an inline error result. -/
def dispatchTool (servers : List (String × ServerFun)) (name : String)
    (input : Args) : ToolResult :=
  match servers.lookup (parseToolName name).1 with
  | some f => f (parseToolName name).2 input
  | none => ⟨["Unknown server: " ++ (parseToolName name).1], some true⟩

/-- ChatEvent emitted while consuming the response stream. -/
def streamEventOut : StreamEvent → ChatEvent
  | .textDelta t => .content_delta t
  | .toolStart i n => .tool_use_start i n none

/-- The tool-use blocks of a completed message, in content order. -/
def toolUseBlocks (content : List ContentBlock) : List (String × String × Args) :=
  content.filterMap (fun b =>
    match b with
    | .toolUse i n inp => some (i, n, inp)
    | .text _ => none)

/-- One iteration body plus recursion of `runToolLoop`'s
`while (turnCount < maxToolTurns)` loop, structured on the remaining turn
budget.  Per iteration: consume the scripted stream (emitting
`content_delta` and `tool_use_start` immediately), append the assistant
message, emit `message_end`, stop on `end_turn`/`max_tokens`, otherwise
execute every tool-use block sequentially (emitting `tool_use_end` each),
append the tool results as a user message and continue — unless the turn
had no tool-use blocks, which is the defensive exit.  Returns the emitted
events, the final transcript and the number of model calls made. -/
def runLoopAux (script : Nat → ScriptedResponse)
    (servers : List (String × ServerFun)) :
    Nat → List Message → Nat → List ChatEvent × List Message × Nat
  | 0, msgs, calls => ([], msgs, calls)
  | turnsLeft + 1, msgs, calls =>
    let resp := script calls
    let streamEvs := resp.events.map streamEventOut
    let msgs1 := msgs ++ [Message.assistant resp.final.content]
    let evs1 := streamEvs ++ [ChatEvent.message_end resp.final.id]
    if resp.final.stop_reason = "end_turn" ∨ resp.final.stop_reason = "max_tokens" then
      (evs1, msgs1, calls + 1)
    else
      let execs := toolUseBlocks resp.final.content
      let endEvs := execs.map (fun e => ChatEvent.tool_use_end e.1 e.2.1)
      let results := execs.map (fun e =>
        let r := dispatchTool servers e.2.1 e.2.2
        ToolResultBlock.mk e.1 r.content r.isError)
      if execs.isEmpty then (evs1, msgs1, calls + 1)
      else
        let msgs2 := msgs1 ++ [Message.userToolResults results]
        let rec3 := runLoopAux script servers turnsLeft msgs2 (calls + 1)
        (evs1 ++ endEvs ++ rec3.1, rec3.2.1, rec3.2.2)

/-- Model of `runToolLoop(config)`. -/
def runToolLoop (script : Nat → ScriptedResponse)
    (servers : List (String × ServerFun)) (messages : List Message)
    (maxToolTurns : Nat) : List ChatEvent × List Message × Nat :=
  runLoopAux script servers maxToolTurns messages 0

/-! ### Session store (src/server/session-store.ts) -/

/-- Session state (`SessionData`, in the variant carrying both the
Messages-handler history and the agent-handler SDK session id). -/
structure SessionData where
  sdkSessionId : Option String := none
  history : List Message := []
  createdAt : Nat
  lastActiveAt : Nat
  messageCount : Nat
deriving DecidableEq

/-- The in-memory store (`MemorySessionStore`): a key-unique association
list modelling the `Map`, plus the configured `maxAge`
(default 24h in milliseconds). -/
structure MemoryStore where
  sessions : List (String × SessionData)
  maxAge : Nat

/-- Model of `MemorySessionStore.get(id)` at current time `now`: absent
gives null; an entry idle longer than `maxAge` is deleted and reported
null; otherwise the entry.  Returns the read result and the store after
the read's side effect. -/
def MemoryStore.get (st : MemoryStore) (id : String) (now : Nat) :
    Option SessionData × MemoryStore :=
  match st.sessions.lookup id with
  | none => (none, st)
  | some s =>
    if st.maxAge < now - s.lastActiveAt then
      (none, { st with sessions := st.sessions.filter (fun e => e.1 ≠ id) })
    else (some s, st)

/-- Model of `MemorySessionStore.set(id, data)`: unconditional upsert. -/
def MemoryStore.set (st : MemoryStore) (id : String) (d : SessionData) :
    MemoryStore :=
  { st with sessions := (id, d) :: st.sessions.filter (fun e => e.1 ≠ id) }

/-- Model of `MemorySessionStore.delete(id)`. -/
def MemoryStore.remove (st : MemoryStore) (id : String) : MemoryStore :=
  { st with sessions := st.sessions.filter (fun e => e.1 ≠ id) }

/-! ### Messages handler -/

/-- Handler configuration (`MessagesHandlerConfig`), defaults as in the
source. -/
structure HandlerCfg where
  servers : List (String × ServerFun)
  maxToolTurns : Nat := 10
  maxHistoryMessages : Nat := 20
  maxInputLength : Nat := 4000

/-- An incoming chat request; the optional page context is the
`(title, pathname)` pair the handler interpolates. -/
structure Request where
  message : String
  sessionId : Option String := none
  pageCtx : Option (String × String) := none

/-- What one `handleMessage` turn produces: the emitted event sequence,
the store after the turn, the number of model calls made, and the
transcript (the `messages` array after the loop) from which the saved
history is trimmed. -/
structure HandlerResult where
  events : List ChatEvent
  store : MemoryStore
  modelCalls : Nat
  transcript : List Message

/-- Model of `handleMessage(req)` of the Messages-API handler: validate,
resolve or create the session (`freshId` models `crypto.randomUUID()`),
emit `session`, run the tool loop, save the history trimmed to the last
`maxHistoryMessages` messages, emit `done`. -/
def handleMessage (cfg : HandlerCfg) (script : Nat → ScriptedResponse)
    (store : MemoryStore) (now : Nat) (freshId : String) (req : Request) :
    HandlerResult :=
  if req.message.isEmpty then
    ⟨[.error "Message is required" (some "INVALID_INPUT")], store, 0, []⟩
  else if cfg.maxInputLength < req.message.length then
    ⟨[.error ("Message exceeds " ++ toString cfg.maxInputLength ++ " characters")
        (some "INPUT_TOO_LONG")], store, 0, []⟩
  else
    let sid := req.sessionId.getD freshId
    let got := store.get sid now
    let sess0 := got.1.getD ⟨none, [], now, now, 0⟩
    let sess := { sess0 with lastActiveAt := now, messageCount := sess0.messageCount + 1 }
    let userContent :=
      match req.pageCtx with
      | some tp =>
        "[User is on: \x22" ++ tp.1 ++ "\x22 at " ++ tp.2 ++ "]\n\n" ++ req.message
      | none => req.message
    let messages := sess.history ++ [Message.user userContent]
    let loopOut := runToolLoop script cfg.servers messages cfg.maxToolTurns
    let newHistory := jsTailSlice loopOut.2.1 cfg.maxHistoryMessages
    let store2 := got.2.set sid { sess with history := newHistory }
    ⟨ChatEvent.session sid :: loopOut.1 ++ [ChatEvent.done sid],
      store2, loopOut.2.2, loopOut.2.1⟩

/-- The event shape asserted by the spec's event-ordering property:
`session, content_delta*, tool_use_start, tool_use_end, content_delta*,
message_end, done` with nothing else interleaved.  The starred segments
are maximal runs, so the match is deterministic. -/
def isDelta : ChatEvent → Bool
  | .content_delta _ => true
  | _ => false

/-- True exactly for `error` events. -/
def isErrorEvent : ChatEvent → Bool
  | .error _ _ => true
  | _ => false

/-- True exactly for `tool_use` content blocks. -/
def isToolUseBlock : ContentBlock → Bool
  | .toolUse _ _ _ => true
  | .text _ => false

/-- Decidable matcher for the claimed event shape. -/
def claimShape (evs : List ChatEvent) : Bool :=
  match evs with
  | .session _ :: rest =>
    match rest.dropWhile isDelta with
    | .tool_use_start _ _ _ :: .tool_use_end _ _ :: r2 =>
      match r2.dropWhile isDelta with
      | [.message_end _, .done _] => true
      | _ => false
    | _ => false
  | _ => false

/-! ## Concrete fixtures used in counterexamples and witnesses -/

/-- The default in-memory store: empty, 24h max age. -/
def emptyStore : MemoryStore := ⟨[], 86400000⟩

/-- A scripted model run: text, then one tool call; after the fed-back
result, a final text and a natural end. -/
def c1Script : Nat → ScriptedResponse := fun k =>
  if k = 0 then
    ⟨[.textDelta "Let me look. ", .toolStart "t1" "proj__search_docs"],
     ⟨"m1",
      [.text "Let me look. ", .toolUse "t1" "proj__search_docs" [("query", "install")]],
      "tool_use"⟩⟩
  else
    ⟨[.textDelta "Install with npm."],
     ⟨"m2", [.text "Install with npm."], "end_turn"⟩⟩

/-- A trivial project server for the scripted runs. -/
def c1Server : ServerFun := fun _ _ => ⟨["npm install mylib"], none⟩

/-- The handler run over the scripted exchange. -/
def c1Run : HandlerResult :=
  handleMessage ⟨[("proj", c1Server)], 10, 20, 4000⟩ c1Script emptyStore 1000 "s1"
    ⟨"How do I install?", none, none⟩

/-- A model that requests a tool call on every response. -/
def c4Script : Nat → ScriptedResponse := fun _ =>
  ⟨[.toolStart "t1" "proj__search_docs"],
   ⟨"m1", [.toolUse "t1" "proj__search_docs" [("query", "x")]], "tool_use"⟩⟩

/-- The file of the scoring counterexample: content `aaa`, so the term
`aa` occurs at two (overlapping) starting positions but only once
non-overlapping. -/
def c2File : IndexedFile := mkIndexedFile "p" "aaa" FileType.doc

/-- Initial indexed file of the re-index run. -/
def c3FileA : IndexedFile := mkIndexedFile "index.ts" "export const a = 1" FileType.code

/-- File present only in the fresh scan handed to `reindex`. -/
def c3FileB : IndexedFile := mkIndexedFile "new.ts" "export const x = 1" FileType.code

/-- The server after construction over `[c3FileA]` and a `reindex` whose
scan also finds `c3FileB`. -/
def c3After : ServerState :=
  (createServer [c3FileA] none []).reindex [c3FileA, c3FileB]

/-- The one-file corpus of the `read_file` counterexample. -/
def c6Files : List IndexedFile := [mkIndexedFile "a.md" "A" FileType.doc]

/-- Two single-match files for the negative-cap counterexample: both score
positive for the query, so the ranked list has two entries. -/
def c9Files : List IndexedFile :=
  [mkIndexedFile "one.md" "alpha" FileType.doc,
   mkIndexedFile "two.md" "alpha" FileType.doc]

/-- A store with one entry last active at time 0 and a 10ms max age. -/
def c8Store : MemoryStore := ⟨[("a", ⟨none, [], 0, 0, 1⟩)], 10⟩

/-- A single scripted response ending immediately. -/
def c10Script : Nat → ScriptedResponse := fun _ =>
  ⟨[.textDelta "Hi."], ⟨"m1", [.text "Hi."], "end_turn"⟩⟩

/-- The handler run with `maxHistoryMessages = 0`. -/
def c10Run : HandlerResult :=
  handleMessage ⟨[], 10, 0, 4000⟩ c10Script emptyStore 5 "s1" ⟨"Hello", none, none⟩

/-! ## Supporting lemmas -/

theorem lookup_filter_ne {α : Type} (l : List (String × α)) (id : String) :
    (l.filter (fun e => e.1 ≠ id)).lookup id = none := by
  induction l with
  | nil => rfl
  | cons e t ih =>
    obtain ⟨k, v⟩ := e
    by_cases h : k = id
    · simpa [List.filter_cons, h] using ih
    · have hne : (id == k) = false := by
        simp only [beq_eq_false_iff_ne]
        exact fun hh => h hh.symm
      simpa [List.filter_cons, h, List.lookup, hne] using ih

theorem lookup_set_self (st : MemoryStore) (id : String) (d : SessionData) :
    (st.set id d).sessions.lookup id = some d := by
  simp [MemoryStore.set, List.lookup]

theorem jsTailSlice_length_le {α : Type} (l : List α) (k : Nat) (hk : 1 ≤ k) :
    (jsTailSlice l k).length ≤ k := by
  have : k ≠ 0 := by omega
  simp [jsTailSlice, this]
  omega

theorem jsTailSlice_suffix {α : Type} (l : List α) (k : Nat) :
    jsTailSlice l k <:+ l := by
  unfold jsTailSlice
  split
  · exact List.suffix_refl l
  · exact List.drop_suffix _ l

/-! ## C8 — session expiry on read -/

/-- C8: for every session identifier, `get` returns null for an absent
identifier; and when the stored entry's `lastActiveAt` is more than
`maxAge` before the current time, `get` returns null and deletes the
entry, so a subsequent `get` also returns null. -/
theorem sessionStore_get_expiry (st : MemoryStore) (id : String) (now : Nat) :
    (st.sessions.lookup id = none → (st.get id now).1 = none) ∧
    (∀ s, st.sessions.lookup id = some s → st.maxAge < now - s.lastActiveAt →
      (st.get id now).1 = none ∧
      ((st.get id now).2.sessions.lookup id = none) ∧
      ((st.get id now).2.get id now).1 = none) := by
  constructor
  · intro h
    simp [MemoryStore.get, h]
  · intro s hs hexp
    have h1 : st.get id now =
        (none, { st with sessions := st.sessions.filter (fun e => e.1 ≠ id) }) := by
      unfold MemoryStore.get
      rw [hs]
      exact if_pos hexp
    refine ⟨by rw [h1], ?_, ?_⟩
    · rw [h1]
      exact lookup_filter_ne st.sessions id
    · rw [h1]
      unfold MemoryStore.get
      rw [lookup_filter_ne]

/-- Witness for C8 at a concrete store: an entry last active at time 0
with `maxAge = 10`, read at time 11. -/
theorem sessionStore_get_expiry_witness :
    (c8Store.get "a" 11).1 = none ∧
    ((c8Store.get "a" 11).2.sessions.lookup "a" = none) ∧
    ((c8Store.get "a" 11).2.get "a" 11).1 = none :=
  (sessionStore_get_expiry c8Store "a" 11).2 ⟨none, [], 0, 0, 1⟩ (by decide) (by decide)

/-! ## C3 — re-index is invisible to the tools -/

/-- C3: after `reindex()` the `fileCount` getter sees the rebuilt
collection, but every tool query still operates on the collection
captured at construction: `read_file` cannot read the newly indexed file
and `list_files` does not list it.  The source's `doIndex()` reassigns
the closure variable `files` to a fresh array while `buildTools` closed
over the original array, so the claimed post-reindex visibility fails. -/
theorem reindex_stale_tools :
    c3After.fileCount = 2 ∧
    (c3After.callTool "read_file" [("path", "new.ts")]).content =
      ["File not found: new.ts\n\nAvailable:\n- index.ts"] ∧
    (c3After.callTool "list_files" []).content = ["## Source Code (1)\n- index.ts"] := by
  decide

/-! ## C6 — read_file miss and hit -/

/-- Counterexample to C6 as stated: at a concrete one-file corpus, the
miss result of `read_file` carries no `isError` flag at all (the claim
says `isError = true`), and the hit result is the file content wrapped in
a markdown heading and code fence rather than the exact content. -/
theorem read_file_claim_counterexample :
    (callTool (buildTools c6Files none) "read_file" [("path", "missing.md")]).isError
        ≠ some true ∧
    (callTool (buildTools c6Files none) "read_file" [("path", "missing.md")]).isError
        = none ∧
    (callTool (buildTools c6Files none) "read_file" [("path", "a.md")]).content
        ≠ ["A"] ∧
    (callTool (buildTools c6Files none) "read_file" [("path", "a.md")]).content
        = ["# a.md\n\n```\nA\n```"] := by
  decide

/-- C6 amended: a miss returns a result that is NOT error-flagged
(`isError` is unset) whose text lists up to 20 candidate paths; a hit
returns a result whose text is the file's exact content wrapped in a
markdown heading and code fence. -/
theorem read_file_amended (files : List IndexedFile) (apiSpec : Option String)
    (p : String) :
    (files.find? (fun f => f.path = p) = none →
      callTool (buildTools files apiSpec) "read_file" [("path", p)] =
        textResult (fileNotFoundText files p) ∧
      (files.take 20).length ≤ 20) ∧
    (∀ f, files.find? (fun f => f.path = p) = some f →
      callTool (buildTools files apiSpec) "read_file" [("path", p)] =
        textResult ("# " ++ f.path ++ "\n\n```\n" ++ f.content ++ "\n```")) := by
  constructor
  · intro h
    constructor
    · simp [callTool, buildTools, List.find?, readFileHandler, lookupArg,
        List.lookup, h]
    · simp [List.length_take]
  · intro f h
    simp [callTool, buildTools, List.find?, readFileHandler, lookupArg,
      List.lookup, h]

/-- Witness for C6 amended at the concrete corpus. -/
theorem read_file_amended_witness :
    (callTool (buildTools c6Files none) "read_file" [("path", "missing.md")] =
        textResult (fileNotFoundText c6Files "missing.md") ∧
      (c6Files.take 20).length ≤ 20) ∧
    (callTool (buildTools c6Files none) "read_file" [("path", "a.md")] =
        textResult ("# " ++ "a.md" ++ "\n\n```\n" ++ "A" ++ "\n```")) :=
  ⟨(read_file_amended c6Files none "missing.md").1 (by decide),
   (read_file_amended c6Files none "a.md").2 (mkIndexedFile "a.md" "A" FileType.doc)
     (by decide)⟩

/-! ## C9 — negative result cap -/

/-- Counterexample to C9 as stated: `searchIndex` with a negative cap is
not rejected — at a concrete two-match corpus and cap `-1` it silently
succeeds and returns a non-empty result list (the source has no
validation and no throwing path; `slice(0, -1)` just drops the last
ranked match). -/
theorem searchIndex_negative_cap_counterexample :
    searchIndex c9Files "alpha" (-1) =
      [mkIndexedFile "one.md" "alpha" FileType.doc] ∧
    searchIndex c9Files "alpha" (-1) ≠ [] := by
  decide

/-- C9 amended: a negative cap is not a validation error; `searchIndex`
always returns, and a negative cap `n` follows `slice(0, n)` semantics,
keeping all ranked matches except the last `-n`. -/
theorem searchIndex_negative_cap (files : List IndexedFile) (query : String)
    (n : Int) (hn : n < 0) :
    searchIndex files query n =
      (rankedMatches files query).take
        ((rankedMatches files query).length - (-n).toNat) := by
  by_cases h : (queryTerms query).isEmpty
  · simp [searchIndex, rankedMatches, h]
  · simp [searchIndex, rankedMatches, jsSliceTo, h, hn]

/-- Witness for C9 amended at the concrete corpus and cap `-1`. -/
theorem searchIndex_negative_cap_witness :
    ((-1 : Int) < 0) ∧
    searchIndex c9Files "alpha" (-1) =
      (rankedMatches c9Files "alpha").take
        ((rankedMatches c9Files "alpha").length - (-(-1 : Int)).toNat) :=
  ⟨by decide, searchIndex_negative_cap c9Files "alpha" (-1) (by decide)⟩

/-! ## C10 — stored history bound -/

/-- Counterexample to C10 as stated: with `maxHistoryMessages = 0`,
`messages.slice(-0)` is `messages.slice(0)` — the whole transcript — so
the stored history has 2 entries, not at most 0. -/
theorem history_bound_counterexample :
    ((c10Run.store.sessions.lookup "s1").map (fun d => d.history.length)
        = some 2) ∧
    ¬ (2 ≤ (0 : Nat)) := by
  decide

/-- C10 amended: for `maxHistoryMessages ≥ 1` (the default is 20), after
every successfully completed handler turn the history saved to the
session store has at most `maxHistoryMessages` entries and is a suffix of
the turn's transcript — only the most recent messages are kept. -/
theorem history_bounded (cfg : HandlerCfg) (script : Nat → ScriptedResponse)
    (store : MemoryStore) (now : Nat) (freshId : String) (req : Request)
    (hmaxH : 1 ≤ cfg.maxHistoryMessages)
    (hmsg : req.message.isEmpty = false)
    (hlen : ¬ cfg.maxInputLength < req.message.length) :
    ∃ d, (handleMessage cfg script store now freshId req).store.sessions.lookup
        (req.sessionId.getD freshId) = some d ∧
      d.history.length ≤ cfg.maxHistoryMessages ∧
      d.history <:+ (handleMessage cfg script store now freshId req).transcript := by
  simp only [handleMessage, hmsg, Bool.false_eq_true, if_false, if_neg hlen]
  exact ⟨_, lookup_set_self _ _ _, jsTailSlice_length_le _ _ hmaxH,
    jsTailSlice_suffix _ _⟩

/-- Witness for C10 amended at a concrete turn with default limits. -/
theorem history_bounded_witness :
    ∃ d, (handleMessage ⟨[], 10, 20, 4000⟩ c10Script emptyStore 5 "s1"
        ⟨"Hello", none, none⟩).store.sessions.lookup "s1" = some d ∧
      d.history.length ≤ 20 ∧
      d.history <:+ (handleMessage ⟨[], 10, 20, 4000⟩ c10Script emptyStore 5 "s1"
        ⟨"Hello", none, none⟩).transcript :=
  history_bounded ⟨[], 10, 20, 4000⟩ c10Script emptyStore 5 "s1"
    ⟨"Hello", none, none⟩ (by decide) (by decide) (by decide)

/-! ## C5 — dispatch contract of callTool -/

theorem searchDocsHandler_ok_isError (files : List IndexedFile) (args : Args)
    (r : ToolResult) (h : searchDocsHandler files args = .ok r) :
    r.isError = none := by
  simp only [searchDocsHandler] at h
  repeat' split at h
  all_goals first | (cases h; rfl) | cases h

theorem searchCodeHandler_ok_isError (files : List IndexedFile) (args : Args)
    (r : ToolResult) (h : searchCodeHandler files args = .ok r) :
    r.isError = none := by
  simp only [searchCodeHandler] at h
  repeat' split at h
  all_goals first | (cases h; rfl) | cases h

theorem readFileHandler_ok_isError (files : List IndexedFile) (args : Args)
    (r : ToolResult) (h : readFileHandler files args = .ok r) :
    r.isError = none := by
  simp only [readFileHandler] at h
  repeat' split at h
  all_goals (cases h; rfl)

theorem listFilesHandler_ok_isError (files : List IndexedFile) (args : Args)
    (r : ToolResult) (h : listFilesHandler files args = .ok r) :
    r.isError = none := by
  simp only [listFilesHandler] at h
  repeat' split at h
  all_goals (cases h; rfl)

theorem projectSummaryHandler_ok_isError (files : List IndexedFile)
    (apiSpecContent : Option String) (args : Args) (r : ToolResult)
    (h : projectSummaryHandler files apiSpecContent args = .ok r) :
    r.isError = none := by
  simp only [projectSummaryHandler] at h
  repeat' split at h
  all_goals (cases h; rfl)

/-- No built-in handler ever returns a successful result carrying the
`isError` flag: every branch returns `textResult`, which leaves the flag
unset. -/
theorem builtin_ok_isError_none (files : List IndexedFile)
    (apiSpecContent : Option String) (t : Tool)
    (ht : t ∈ buildTools files apiSpecContent) (args : Args) (r : ToolResult)
    (h : t.handler args = .ok r) : r.isError = none := by
  simp only [buildTools, List.mem_cons, List.mem_singleton] at ht
  rcases ht with h1 | h2 | h3 | h4 | h5 | hf
  · subst h1
    exact searchDocsHandler_ok_isError files args r h
  · subst h2
    exact searchCodeHandler_ok_isError files args r h
  · subst h3
    exact readFileHandler_ok_isError files args r h
  · subst h4
    exact listFilesHandler_ok_isError files args r h
  · subst h5
    exact projectSummaryHandler_ok_isError files apiSpecContent args r h
  · cases hf

/-- C5: the dispatch contract of `callTool` over the built-in tools plus
caller-supplied custom tools.  `callTool` itself never throws (it is a
total function): an unknown name yields an error-flagged result naming
the tool; a handler exception yields an error-flagged result carrying the
message; and — provided each custom handler that successfully returns an
error-flagged result supplies at least one text segment, which every
built-in handler does — every error-flagged result `callTool` returns
carries at least one text segment. -/
theorem callTool_dispatch_contract (files : List IndexedFile)
    (apiSpecContent : Option String) (custom : List Tool)
    (hcustom : ∀ t ∈ custom, ∀ args r, t.handler args = .ok r →
      r.isError = some true → r.content ≠ [])
    (name : String) (args : Args) :
    ((buildTools files apiSpecContent ++ custom).find? (fun t => t.name = name)
        = none →
      callTool (buildTools files apiSpecContent ++ custom) name args =
        ⟨["Unknown tool: " ++ name], some true⟩) ∧
    (∀ (t : Tool) (msg : String),
      (buildTools files apiSpecContent ++ custom).find? (fun t => t.name = name)
          = some t →
      t.handler args = .error msg →
      callTool (buildTools files apiSpecContent ++ custom) name args =
        ⟨["Tool error: " ++ msg], some true⟩) ∧
    ((callTool (buildTools files apiSpecContent ++ custom) name args).isError
        = some true →
      (callTool (buildTools files apiSpecContent ++ custom) name args).content
        ≠ []) := by
  refine ⟨?_, ?_, ?_⟩
  · intro h
    simp [callTool, h]
  · intro t msg hfind hh
    simp [callTool, hfind, hh]
  · intro herr
    cases hfind : (buildTools files apiSpecContent ++ custom).find?
        (fun t => t.name = name) with
    | none => simp [callTool, hfind]
    | some t =>
      cases hh : t.handler args with
      | error msg => simp [callTool, hfind, hh]
      | ok r =>
        have hres : callTool (buildTools files apiSpecContent ++ custom) name args
            = r := by
          simp [callTool, hfind, hh]
        rw [hres] at herr ⊢
        have hmem := List.mem_of_find?_eq_some hfind
        rcases List.mem_append.mp hmem with hb | hc
        · exact absurd herr (by simp [builtin_ok_isError_none files apiSpecContent
            t hb args r hh])
        · exact hcustom t hc args r hh herr

/-- Witness for C5: an empty index, no custom tools, and an unknown tool
name. -/
theorem callTool_dispatch_contract_witness :
    ((buildTools [] none ++ []).find? (fun t : Tool => t.name = "nonexistent") = none →
      callTool (buildTools [] none ++ []) "nonexistent" [] =
        ⟨["Unknown tool: " ++ "nonexistent"], some true⟩) ∧
    (∀ (t : Tool) (msg : String),
      (buildTools [] none ++ []).find? (fun t : Tool => t.name = "nonexistent") = some t →
      t.handler [] = .error msg →
      callTool (buildTools [] none ++ []) "nonexistent" [] =
        ⟨["Tool error: " ++ msg], some true⟩) ∧
    ((callTool (buildTools [] none ++ []) "nonexistent" []).isError = some true →
      (callTool (buildTools [] none ++ []) "nonexistent" []).content ≠ []) :=
  callTool_dispatch_contract [] none []
    (fun t ht => absurd ht (List.not_mem_nil t)) "nonexistent" []

/-! ## C2 — the search score

The imperative `indexOf` loop of `searchIndex` is proved equal to the
declarative count of ALL occurrence starting positions (overlaps
included), which refutes the claim's "non-overlapping" reading. -/

theorem scanIdx_some {p : Nat → Bool} :
    ∀ {f i j}, scanIdx p f i = some j →
      i ≤ j ∧ j < i + f ∧ p j = true ∧ ∀ k, i ≤ k → k < j → p k = false := by
  intro f
  induction f with
  | zero => intro i j h; cases h
  | succ f ih =>
    intro i j h
    unfold scanIdx at h
    by_cases hp : p i
    · rw [if_pos hp] at h
      cases h
      exact ⟨Nat.le_refl _, by omega, hp, fun k hk1 hk2 => by omega⟩
    · rw [if_neg hp] at h
      obtain ⟨h1, h2, h3, h4⟩ := ih h
      refine ⟨by omega, by omega, h3, ?_⟩
      intro k hk1 hk2
      rcases Nat.eq_or_lt_of_le hk1 with rfl | hlt
      · exact Bool.eq_false_iff.mpr hp
      · exact h4 k hlt hk2

theorem scanIdx_none {p : Nat → Bool} :
    ∀ {f i}, scanIdx p f i = none → ∀ k, i ≤ k → k < i + f → p k = false := by
  intro f
  induction f with
  | zero => intro i _ k hk1 hk2; omega
  | succ f ih =>
    intro i h k hk1 hk2
    unfold scanIdx at h
    by_cases hp : p i
    · rw [if_pos hp] at h; cases h
    · rw [if_neg hp] at h
      rcases Nat.eq_or_lt_of_le hk1 with rfl | hlt
      · exact Bool.eq_false_iff.mpr hp
      · exact ih h k hlt (by omega)

theorem substrAt_false_of_ge (hay pat : List Char) (j : Nat)
    (hpat : pat ≠ []) (hj : hay.length ≤ j) : substrAt hay pat j = false := by
  unfold substrAt
  rw [List.drop_eq_nil_of_le hj]
  cases pat with
  | nil => exact absurd rfl hpat
  | cons c cs => rfl

theorem countOccAux_eq (hay pat : List Char) (hpat : pat ≠ []) :
    ∀ (f start : Nat), hay.length + 1 ≤ start + f →
      countOccAux hay pat f start =
        (List.range' start (hay.length + 1 - start)).countP
          (fun i => substrAt hay pat i) := by
  intro f
  induction f with
  | zero =>
    intro start hf
    have : hay.length + 1 - start = 0 := by omega
    rw [this]
    rfl
  | succ f ih =>
    intro start hf
    unfold countOccAux
    cases hidx : indexOfFrom hay pat start with
    | none =>
      have hall := scanIdx_none hidx
      symm
      rw [List.countP_eq_zero]
      intro a ha
      rw [List.mem_range'_1] at ha
      by_cases hs : start ≤ hay.length
      · exact Bool.eq_false_iff.mp (hall a ha.1 (by omega))
      · omega
    | some i =>
      obtain ⟨h1, h2, h3, h4⟩ := scanIdx_some hidx
      have hstart : start ≤ hay.length := by
        by_contra hs
        have : hay.length + 1 - start = 0 := by omega
        rw [indexOfFrom, this] at hidx
        cases hidx
      have hi : i ≤ hay.length := by
        by_contra hgt
        rw [substrAt_false_of_ge hay pat i hpat (by omega)] at h3
        cases h3
      have hsplit : List.range' start (hay.length + 1 - start) =
          List.range' start (i - start) ++ List.range' i (hay.length + 1 - i) := by
        have hra := List.range'_append start (i - start) (hay.length + 1 - i) 1
        rw [Nat.one_mul] at hra
        have harg : start + (i - start) = i := by omega
        rw [harg] at hra
        have harg3 : hay.length + 1 - start = (hay.length + 1 - i) + (i - start) := by
          omega
        rw [harg3]
        exact hra.symm
      rw [hsplit, List.countP_append]
      have hzero : (List.range' start (i - start)).countP
          (fun k => substrAt hay pat k) = 0 := by
        rw [List.countP_eq_zero]
        intro a ha
        rw [List.mem_range'_1] at ha
        exact Bool.eq_false_iff.mp (h4 a ha.1 (by omega))
      have hstep : hay.length + 1 - i = (hay.length - i) + 1 := by omega
      rw [hzero, hstep, List.range'_succ, List.countP_cons, if_pos h3]
      have hrec := ih (i + 1) (by omega)
      have harg2 : hay.length + 1 - (i + 1) = hay.length - i := by omega
      rw [harg2] at hrec
      show countOccAux hay pat f (i + 1) + 1 =
        0 + ((List.range' (i + 1) (hay.length - i)).countP
          (fun k => substrAt hay pat k) + 1)
      rw [hrec]
      omega

/-- The `indexOf` loop of `searchIndex` counts exactly the occurrence
starting positions, overlaps included. -/
theorem countOcc_eq_occPositions (hay pat : List Char) (hpat : pat ≠ []) :
    countOcc hay pat = occPositions hay pat := by
  unfold countOcc occPositions
  rw [countOccAux_eq hay pat hpat (hay.length + 1) 0 (by omega),
    List.range_eq_range']
  rfl

theorem wordsAux_ne_nil : ∀ (cs acc : List Char), ∀ l ∈ wordsAux cs acc, l ≠ [] := by
  intro cs
  induction cs with
  | nil =>
    intro acc l hl
    unfold wordsAux at hl
    split at hl
    · cases hl
    · rename_i hacc
      rw [List.mem_singleton] at hl
      subst hl
      simpa using fun h => hacc (by simp [h])
  | cons c cs ih =>
    intro acc l hl
    unfold wordsAux at hl
    split at hl
    · split at hl
      · exact ih [] l hl
      · rename_i hacc
        rcases List.mem_cons.mp hl with rfl | hmem
        · simpa using fun h => hacc (by simp [h])
        · exact ih [] l hmem
    · exact ih (c :: acc) l hl

/-- Every query term produced by the split-and-filter pipeline is
non-empty. -/
theorem queryTerms_ne_nil (query : String) (t : String)
    (ht : t ∈ queryTerms query) : t.data ≠ [] := by
  unfold queryTerms at ht
  rw [List.mem_map] at ht
  obtain ⟨l, hl, rfl⟩ := ht
  exact wordsAux_ne_nil _ _ l hl

theorem foldl_add_eq_sum (g : String → Nat) :
    ∀ (terms : List String) (init : Nat),
      terms.foldl (fun acc t => acc + g t) init = init + (terms.map g).sum := by
  intro terms
  induction terms with
  | nil => intro init; simp
  | cons t ts ih =>
    intro init
    simp only [List.foldl_cons, List.map_cons, List.sum_cons]
    rw [ih]
    omega

/-- Counterexample to C2 as stated: for the file with content `aaa` and
the query `aa`, the score the source assigns is 2 (the occurrences at
positions 0 and 1 overlap and are both counted), while the claimed
non-overlapping count gives 1. -/
theorem search_score_counterexample :
    scoreFile c2File (queryTerms "aa") = 2 ∧
    claimedScore c2File (queryTerms "aa") = 1 ∧ (2 : Nat) ≠ 1 := by
  decide

/-- C2 amended: for every indexed file and query, the score `searchIndex`
assigns equals the sum, over the whitespace-split lowercase query terms,
of the number of ALL substring occurrence positions of the term in the
normalized content (overlapping occurrences counted), plus 5 bonus
points per term whose lowercase form is a substring of the file's path
(case-insensitive). -/
theorem search_score_formula (f : IndexedFile) (query : String) :
    scoreFile f (queryTerms query) =
      ((queryTerms query).map (fun t =>
        occPositions f.searchContent.data t.data +
          (if jsIncludes (jsToLower f.path) t then 5 else 0))).sum := by
  unfold scoreFile
  rw [foldl_add_eq_sum (termScore f) (queryTerms query) 0, Nat.zero_add]
  congr 1
  apply List.map_congr_left
  intro t ht
  unfold termScore
  rw [countOcc_eq_occPositions _ _ (queryTerms_ne_nil query t ht)]

/-! ## C1 and C4 — event ordering and the turn ceiling -/

/-- Unfolding of the loop body at a positive turn budget. -/
theorem runLoopAux_succ (script : Nat → ScriptedResponse)
    (srvs : List (String × ServerFun)) (n : Nat) (msgs : List Message)
    (calls : Nat) :
    runLoopAux script srvs (n + 1) msgs calls =
      (let resp := script calls
       let streamEvs := resp.events.map streamEventOut
       let msgs1 := msgs ++ [Message.assistant resp.final.content]
       let evs1 := streamEvs ++ [ChatEvent.message_end resp.final.id]
       if resp.final.stop_reason = "end_turn" ∨
           resp.final.stop_reason = "max_tokens" then
         (evs1, msgs1, calls + 1)
       else
         let execs := toolUseBlocks resp.final.content
         let endEvs := execs.map (fun e => ChatEvent.tool_use_end e.1 e.2.1)
         let results := execs.map (fun e =>
           let r := dispatchTool srvs e.2.1 e.2.2
           ToolResultBlock.mk e.1 r.content r.isError)
         if execs.isEmpty then (evs1, msgs1, calls + 1)
         else
           let msgs2 := msgs1 ++ [Message.userToolResults results]
           let rec3 := runLoopAux script srvs n msgs2 (calls + 1)
           (evs1 ++ endEvs ++ rec3.1, rec3.2.1, rec3.2.2)) := rfl

/-- The loop makes no model call once the turn budget is exhausted. -/
theorem runLoopAux_zero (script : Nat → ScriptedResponse)
    (srvs : List (String × ServerFun)) (msgs : List Message) (calls : Nat) :
    runLoopAux script srvs 0 msgs calls = ([], msgs, calls) := rfl

/-- Text blocks contribute nothing to the tool-use block list. -/
theorem toolUseBlocks_texts_concat (l : List String) (i n : String) (inp : Args) :
    toolUseBlocks (l.map ContentBlock.text ++ [ContentBlock.toolUse i n inp]) =
      [(i, n, inp)] := by
  induction l with
  | nil => rfl
  | cons t ts ih =>
    simp [toolUseBlocks, List.filterMap_cons, ih]

/-- Stream events never map to an `error` event. -/
theorem streamEventOut_not_error (se : StreamEvent) :
    isErrorEvent (streamEventOut se) = false := by
  cases se <;> rfl

/-- Counterexample to C1 as stated: for the scripted text-then-tool-call
run, the handler's observed sequence does not match the claimed shape —
the source yields `message_end` after every model turn, so a
`message_end` sits between `tool_use_start` and `tool_use_end` and a
second one precedes `done`. -/
theorem event_order_counterexample :
    claimShape c1Run.events = false ∧
    c1Run.events = [.session "s1", .content_delta "Let me look. ",
      .tool_use_start "t1" "proj__search_docs" none, .message_end "m1",
      .tool_use_end "t1" "proj__search_docs", .content_delta "Install with npm.",
      .message_end "m2", .done "s1"] := by
  decide

/-- C1 amended: for a scripted model response emitting text deltas, then
one tool call, then (after the tool result is fed back) final text
deltas, the event sequence observed by the handler's consumer is exactly
`session, content_delta*, tool_use_start, message_end, tool_use_end,
content_delta*, message_end, done` — the loop emits `message_end` at the
end of every model turn, before the turn's tools execute. -/
theorem event_order_amended (srvs : List (String × ServerFun))
    (ts1 ts2 bts1 bts2 : List String) (tid tnm m1 m2 freshId msg : String)
    (input : Args) (store : MemoryStore) (now : Nat)
    (hmsg : msg.isEmpty = false) (hlen : ¬ (4000 < msg.length)) :
    (handleMessage ⟨srvs, 10, 20, 4000⟩
      (fun k => if k = 0 then
        ⟨(ts1.map StreamEvent.textDelta) ++ [StreamEvent.toolStart tid tnm],
         ⟨m1, (bts1.map ContentBlock.text) ++ [ContentBlock.toolUse tid tnm input],
          "tool_use"⟩⟩
       else
        ⟨ts2.map StreamEvent.textDelta,
         ⟨m2, bts2.map ContentBlock.text, "end_turn"⟩⟩)
      store now freshId ⟨msg, none, none⟩).events =
    ChatEvent.session freshId ::
      ((ts1.map ChatEvent.content_delta) ++
       [ChatEvent.tool_use_start tid tnm none, ChatEvent.message_end m1,
        ChatEvent.tool_use_end tid tnm] ++
       (ts2.map ChatEvent.content_delta) ++
       [ChatEvent.message_end m2, ChatEvent.done freshId]) := by
  simp only [handleMessage, hmsg, Bool.false_eq_true, if_false, if_neg hlen]
  unfold runToolLoop
  rw [show (10 : Nat) = 9 + 1 from rfl, runLoopAux_succ]
  simp only [show (0 : Nat) = 0 from rfl, if_pos rfl]
  rw [show (9 : Nat) = 8 + 1 from rfl, runLoopAux_succ]
  simp [toolUseBlocks_texts_concat, streamEventOut, List.map_map, Function.comp]
  simp only [show streamEventOut ∘ StreamEvent.textDelta = ChatEvent.content_delta
    from funext fun t => rfl]

/-- C4: with `maxToolTurns = 1` and a model that requests a tool call on
every response, the handler makes exactly one model call, never a
second, and its stream still terminates with a `done` event and carries
no `error` event (graceful cutoff). -/
theorem turn_ceiling (srvs : List (String × ServerFun))
    (script : Nat → ScriptedResponse) (store : MemoryStore) (now : Nat)
    (freshId msg : String)
    (hmsg : msg.isEmpty = false) (hlen : ¬ (4000 < msg.length))
    (htool : ∀ k, (script k).final.stop_reason = "tool_use" ∧
      ∃ b ∈ (script k).final.content, isToolUseBlock b = true) :
    (handleMessage ⟨srvs, 1, 20, 4000⟩ script store now freshId
        ⟨msg, none, none⟩).modelCalls = 1 ∧
    (handleMessage ⟨srvs, 1, 20, 4000⟩ script store now freshId
        ⟨msg, none, none⟩).events.getLast? = some (ChatEvent.done freshId) ∧
    ∀ e ∈ (handleMessage ⟨srvs, 1, 20, 4000⟩ script store now freshId
        ⟨msg, none, none⟩).events, isErrorEvent e = false := by
  obtain ⟨hstop, b, hbmem, hbtool⟩ := htool 0
  have hexec : toolUseBlocks (script 0).final.content ≠ [] := by
    cases b with
    | text s => cases hbtool
    | toolUse i n inp =>
      have : (i, n, inp) ∈ toolUseBlocks (script 0).final.content :=
        List.mem_filterMap.mpr ⟨ContentBlock.toolUse i n inp, hbmem, rfl⟩
      exact List.ne_nil_of_mem this
  have hexecEmpty : (toolUseBlocks (script 0).final.content).isEmpty = false := by
    rw [List.isEmpty_eq_false]
    exact hexec
  have hcond : ¬ ((script 0).final.stop_reason = "end_turn" ∨
      (script 0).final.stop_reason = "max_tokens") := by
    rw [hstop]
    rintro (h | h) <;> exact absurd h (by decide)
  simp only [handleMessage, hmsg, Bool.false_eq_true, if_false, if_neg hlen,
    Option.getD_none]
  unfold runToolLoop
  rw [show (1 : Nat) = 0 + 1 from rfl, runLoopAux_succ]
  simp only [if_neg hcond, hexecEmpty, Bool.false_eq_true, if_false,
    runLoopAux_zero]
  refine ⟨by simp, ?_, ?_⟩
  · rw [← List.cons_append, List.getLast?_concat]
  · intro e he
    rcases List.mem_cons.mp he with rfl | he1
    · rfl
    rcases List.mem_append.mp he1 with he2 | he3
    · rcases List.mem_append.mp he2 with he4 | he5
      · rcases List.mem_append.mp he4 with he6 | he7
        · rcases List.mem_append.mp he6 with he8 | he9
          · obtain ⟨se, _, rfl⟩ := List.mem_map.mp he8
            exact streamEventOut_not_error se
          · rw [List.mem_singleton] at he9
            subst he9
            rfl
        · obtain ⟨x, _, rfl⟩ := List.mem_map.mp he7
          rfl
      · exact absurd he5 (List.not_mem_nil e)
    · rw [List.mem_singleton] at he3
      subst he3
      rfl

/-- Witness for C4 at the concrete always-tool-calling script. -/
theorem turn_ceiling_witness :
    (handleMessage ⟨[("proj", c1Server)], 1, 20, 4000⟩ c4Script emptyStore 0 "s1"
        ⟨"Hi", none, none⟩).modelCalls = 1 ∧
    (handleMessage ⟨[("proj", c1Server)], 1, 20, 4000⟩ c4Script emptyStore 0 "s1"
        ⟨"Hi", none, none⟩).events.getLast? = some (ChatEvent.done "s1") ∧
    ∀ e ∈ (handleMessage ⟨[("proj", c1Server)], 1, 20, 4000⟩ c4Script emptyStore 0
        "s1" ⟨"Hi", none, none⟩).events, isErrorEvent e = false :=
  turn_ceiling [("proj", c1Server)] c4Script emptyStore 0 "s1" "Hi"
    (by decide) (by decide)
    (fun k => ⟨rfl, ContentBlock.toolUse "t1" "proj__search_docs" [("query", "x")],
      List.mem_singleton_self _, rfl⟩)

/-- Witness for C1 amended at concrete delta texts and identifiers. -/
theorem event_order_amended_witness :
    (handleMessage ⟨[("proj", c1Server)], 10, 20, 4000⟩
      (fun k => if k = 0 then
        ⟨(["Hello "].map StreamEvent.textDelta) ++
          [StreamEvent.toolStart "t1" "proj__search_docs"],
         ⟨"m1", (["Hello "].map ContentBlock.text) ++
            [ContentBlock.toolUse "t1" "proj__search_docs" [("query", "x")]],
          "tool_use"⟩⟩
       else
        ⟨["Bye"].map StreamEvent.textDelta,
         ⟨"m2", ["Bye"].map ContentBlock.text, "end_turn"⟩⟩)
      emptyStore 7 "sid9" ⟨"Hi", none, none⟩).events =
    ChatEvent.session "sid9" ::
      ((["Hello "].map ChatEvent.content_delta) ++
       [ChatEvent.tool_use_start "t1" "proj__search_docs" none,
        ChatEvent.message_end "m1",
        ChatEvent.tool_use_end "t1" "proj__search_docs"] ++
       (["Bye"].map ChatEvent.content_delta) ++
       [ChatEvent.message_end "m2", ChatEvent.done "sid9"]) :=
  event_order_amended [("proj", c1Server)] ["Hello "] ["Bye"] ["Hello "] ["Bye"]
    "t1" "proj__search_docs" "m1" "m2" "sid9" "Hi" [("query", "x")] emptyStore 7
    (by decide) (by decide)

/-! ## C7 — serialization round-trip

Part 1: the JSON string codec.  `parseStrBody` run on an escaped body
followed by the closing quote recovers the original characters. -/

theorem hexVal_hexDigitChar : ∀ d < 16, hexVal (hexDigitChar d) = some d := by
  decide

theorem parseStrBody_quote (f : Nat) (rest : List Char) :
    parseStrBody (f + 1) (quoteC :: rest) = some ([], rest) := by
  simp [parseStrBody]

theorem parseStrBody_esc (f : Nat) (e d : Char) (tail : List Char)
    (he : unescape1 e = some d) (hu : ¬ e = 'u') :
    parseStrBody (f + 1) (bslashC :: e :: tail) =
      (parseStrBody f tail).map (fun pr => (d :: pr.1, pr.2)) := by
  simp [parseStrBody, hu, he, show ¬ bslashC = quoteC by decide]

theorem parseStrBody_u (f : Nat) (h3 h4 : Char) (d1 d2 : Nat) (tail : List Char)
    (hv3 : hexVal h3 = some d1) (hv4 : hexVal h4 = some d2) :
    parseStrBody (f + 1) (bslashC :: 'u' :: '0' :: '0' :: h3 :: h4 :: tail) =
      (parseStrBody f tail).map (fun pr =>
        (Char.ofNat (((0 * 16 + 0) * 16 + d1) * 16 + d2) :: pr.1, pr.2)) := by
  simp [parseStrBody, hv3, hv4, show hexVal '0' = some 0 from rfl,
    show ¬ bslashC = quoteC by decide]

theorem parseStrBody_raw (f : Nat) (c : Char) (tail : List Char)
    (h1 : ¬ c = quoteC) (h2 : ¬ c = bslashC) (h3 : ¬ c.toNat < 32) :
    parseStrBody (f + 1) (c :: tail) =
      (parseStrBody f tail).map (fun pr => (c :: pr.1, pr.2)) := by
  simp [parseStrBody, h1, h2, h3]

theorem parseStrBody_enc :
    ∀ (s rest : List Char) (fuel : Nat), s.length < fuel →
      parseStrBody fuel (encStrBody s ++ quoteC :: rest) = some (s, rest) := by
  intro s
  induction s with
  | nil =>
    intro rest fuel hf
    cases fuel with
    | zero => omega
    | succ f =>
      rw [encStrBody, List.nil_append, parseStrBody_quote]
  | cons c cs ih =>
    intro rest fuel hf
    cases fuel with
    | zero => omega
    | succ f =>
      have hrec := ih rest f (by simp at hf; omega)
      rw [encStrBody, List.append_assoc]
      unfold escChar
      by_cases h1 : c = quoteC
      · rw [if_pos h1, List.cons_append, List.cons_append, List.nil_append,
          parseStrBody_esc f quoteC quoteC _ (by decide) (by decide), hrec]
        rw [h1]
        rfl
      rw [if_neg h1]
      by_cases h2 : c = bslashC
      · rw [if_pos h2, List.cons_append, List.cons_append, List.nil_append,
          parseStrBody_esc f bslashC bslashC _ (by decide) (by decide), hrec]
        rw [h2]
        rfl
      rw [if_neg h2]
      by_cases h3 : c = '\n'
      · rw [if_pos h3, List.cons_append, List.cons_append, List.nil_append,
          parseStrBody_esc f 'n' '\n' _ (by decide) (by decide), hrec]
        rw [h3]
        rfl
      rw [if_neg h3]
      by_cases h4 : c = '\r'
      · rw [if_pos h4, List.cons_append, List.cons_append, List.nil_append,
          parseStrBody_esc f 'r' '\r' _ (by decide) (by decide), hrec]
        rw [h4]
        rfl
      rw [if_neg h4]
      by_cases h5 : c = '\t'
      · rw [if_pos h5, List.cons_append, List.cons_append, List.nil_append,
          parseStrBody_esc f 't' '\t' _ (by decide) (by decide), hrec]
        rw [h5]
        rfl
      rw [if_neg h5]
      by_cases h6 : c.toNat = 8
      · rw [if_pos h6, List.cons_append, List.cons_append, List.nil_append,
          parseStrBody_esc f 'b' (Char.ofNat 8) _ (by decide) (by decide), hrec]
        have : Char.ofNat 8 = c := by
          rw [← h6, Char.ofNat_toNat]
        rw [this]
        rfl
      rw [if_neg h6]
      by_cases h7 : c.toNat = 12
      · rw [if_pos h7, List.cons_append, List.cons_append, List.nil_append,
          parseStrBody_esc f 'f' (Char.ofNat 12) _ (by decide) (by decide), hrec]
        have : Char.ofNat 12 = c := by
          rw [← h7, Char.ofNat_toNat]
        rw [this]
        rfl
      rw [if_neg h7]
      by_cases h8 : c.toNat < 32
      · rw [if_pos h8]
        have hd1 : hexVal (hexDigitChar (c.toNat / 16)) = some (c.toNat / 16) :=
          hexVal_hexDigitChar _ (by omega)
        have hd2 : hexVal (hexDigitChar (c.toNat % 16)) = some (c.toNat % 16) :=
          hexVal_hexDigitChar _ (Nat.mod_lt _ (by omega))
        rw [show ([bslashC, 'u', Char.ofNat 48, Char.ofNat 48,
            hexDigitChar (c.toNat / 16), hexDigitChar (c.toNat % 16)] :
              List Char) ++ (encStrBody cs ++ quoteC :: rest) =
          bslashC :: 'u' :: '0' :: '0' :: hexDigitChar (c.toNat / 16) ::
            hexDigitChar (c.toNat % 16) :: (encStrBody cs ++ quoteC :: rest)
          from rfl]
        rw [parseStrBody_u f _ _ _ _ _ hd1 hd2, hrec]
        have harith : ((0 * 16 + 0) * 16 + c.toNat / 16) * 16 + c.toNat % 16 =
            c.toNat := by omega
        rw [harith, Char.ofNat_toNat]
        rfl
      rw [if_neg h8]
      rw [List.singleton_append,
        parseStrBody_raw f c _ h1 h2 (by
          intro hlt
          exact h8 hlt), hrec]
      rfl

/-! Part 2: object-member parsing recovers encoded members. -/

theorem escChar_length_pos (c : Char) : 1 ≤ (escChar c).length := by
  unfold escChar
  repeat' split
  all_goals simp

theorem encStrBody_length_ge (s : List Char) :
    s.length ≤ (encStrBody s).length := by
  induction s with
  | nil => simp [encStrBody]
  | cons c cs ih =>
    rw [encStrBody, List.length_append, List.length_cons]
    have := escChar_length_pos c
    omega

theorem encMembersStr_single (k v : String) :
    encMembersStr [(k, v)] = encStr k ++ ':' :: encStr v := rfl

theorem encMembersStr_cons2 (k v : String) (kv2 : String × String)
    (fields2 : List (String × String)) :
    encMembersStr ((k, v) :: kv2 :: fields2) =
      encStr k ++ ':' :: encStr v ++ ',' :: encMembersStr (kv2 :: fields2) := rfl

theorem encPayloadMembers_single (k : String) (v : JVal) :
    encPayloadMembers [(k, v)] = encStr k ++ ':' :: encJVal v := rfl

theorem encPayloadMembers_cons2 (k : String) (v : JVal) (kv2 : String × JVal)
    (p2 : Payload) :
    encPayloadMembers ((k, v) :: kv2 :: p2) =
      encStr k ++ ':' :: encJVal v ++ ',' :: encPayloadMembers (kv2 :: p2) := rfl

theorem parseKeyStr_cons_quote (X : List Char) :
    parseKeyStr (quoteC :: X) =
      (parseStrBody (X.length + 1) X).map (fun pr => (String.mk pr.1, pr.2)) := rfl

theorem parseKeyStr_enc (s : String) (rest : List Char) :
    parseKeyStr (encStr s ++ rest) = some (s, rest) := by
  have hshape : encStr s ++ rest =
      quoteC :: (encStrBody s.data ++ quoteC :: rest) := by
    unfold encStr
    simp [List.append_assoc]
  rw [hshape, parseKeyStr_cons_quote]
  rw [parseStrBody_enc s.data rest _ (by
    have := encStrBody_length_ge s.data
    simp only [List.length_append, List.length_cons]
    omega)]
  rfl

theorem expectCh_hit (c : Char) (rest : List Char) :
    expectCh c (c :: rest) = some rest := by
  simp [expectCh]

theorem parseMembersStr_enc :
    ∀ (fields : List (String × String)) (rest : List Char) (fuel : Nat),
      fields ≠ [] → fields.length ≤ fuel →
      parseMembersStr fuel (encMembersStr fields ++ rbraceC :: rest) =
        some (fields, rest) := by
  intro fields
  induction fields with
  | nil => intro rest fuel h _; exact absurd rfl h
  | cons kv fields ih =>
    intro rest fuel _ hlen
    obtain ⟨k, v⟩ := kv
    cases fuel with
    | zero => simp at hlen
    | succ f =>
      cases fields with
      | nil =>
        have hshape : encMembersStr [(k, v)] ++ rbraceC :: rest =
            encStr k ++ ':' :: (encStr v ++ rbraceC :: rest) := by
          rw [encMembersStr_single]
          simp [List.append_assoc]
        rw [hshape]
        simp only [parseMembersStr, parseKeyStr_enc, expectCh_hit]
        simp [show ¬ rbraceC = ',' by decide]
      | cons kv2 fields2 =>
        have hih := ih rest f (List.cons_ne_nil _ _) (by
          simp only [List.length_cons] at hlen ⊢
          omega)
        have hshape : encMembersStr ((k, v) :: kv2 :: fields2) ++ rbraceC :: rest =
            encStr k ++ ':' :: (encStr v ++ ',' ::
              (encMembersStr (kv2 :: fields2) ++ rbraceC :: rest)) := by
          rw [encMembersStr_cons2]
          simp [List.append_assoc]
        rw [hshape]
        simp only [parseMembersStr, parseKeyStr_enc, expectCh_hit]
        simp [hih]

theorem encStr_length_ge_two (s : String) : 2 ≤ (encStr s).length := by
  unfold encStr
  simp

theorem encMembersStr_length_ge (fields : List (String × String)) :
    fields.length ≤ (encMembersStr fields).length := by
  induction fields with
  | nil => simp [encMembersStr]
  | cons kv fields ih =>
    obtain ⟨k, v⟩ := kv
    cases fields with
    | nil =>
      rw [encMembersStr_single]
      have := encStr_length_ge_two k
      simp only [List.length_cons, List.length_append, List.length_nil]
      omega
    | cons kv2 fields2 =>
      rw [encMembersStr_cons2]
      have := encStr_length_ge_two k
      simp only [List.length_cons, List.length_append] at ih ⊢
      omega

theorem encMembersStr_cons_head (kv : String × String)
    (fields : List (String × String)) :
    ∃ t, encMembersStr (kv :: fields) = quoteC :: t := by
  obtain ⟨k, v⟩ := kv
  cases fields with
  | nil => exact ⟨_, rfl⟩
  | cons kv2 fields2 => exact ⟨_, rfl⟩

theorem encPayloadMembers_cons_head (kv : String × JVal) (p : Payload) :
    ∃ t, encPayloadMembers (kv :: p) = quoteC :: t := by
  obtain ⟨k, v⟩ := kv
  cases p with
  | nil => exact ⟨_, rfl⟩
  | cons kv2 p2 => exact ⟨_, rfl⟩

theorem parseFlatVal_cons_quote (X : List Char) :
    parseFlatVal (quoteC :: X) =
      (parseStrBody (X.length + 1) X).map (fun pr =>
        (JVal.s (String.mk pr.1), pr.2)) := rfl

theorem parseFlatVal_cons_brace (y : Char) (X : List Char) :
    parseFlatVal (lbraceC :: y :: X) =
      if y = rbraceC then some (JVal.o [], X)
      else (parseMembersStr ((y :: X).length + 1) (y :: X)).map (fun pr =>
        (JVal.o pr.1, pr.2)) := rfl

theorem parseFlatVal_enc (v : JVal) (rest : List Char) :
    parseFlatVal (encJVal v ++ rest) = some (v, rest) := by
  cases v with
  | s str =>
    have hshape : encJVal (JVal.s str) ++ rest =
        quoteC :: (encStrBody str.data ++ quoteC :: rest) := by
      rw [encJVal]
      unfold encStr
      simp [List.append_assoc]
    rw [hshape, parseFlatVal_cons_quote]
    rw [parseStrBody_enc str.data rest _ (by
      have := encStrBody_length_ge str.data
      simp only [List.length_append, List.length_cons]
      omega)]
    rfl
  | o fields =>
    cases fields with
    | nil =>
      have hshape : encJVal (JVal.o []) ++ rest =
          lbraceC :: rbraceC :: rest := by
        rw [encJVal, encMembersStr]
        simp
      rw [hshape, parseFlatVal_cons_brace, if_pos rfl]
    | cons kv fields2 =>
      obtain ⟨t, ht⟩ := encMembersStr_cons_head kv fields2
      have hshape : encJVal (JVal.o (kv :: fields2)) ++ rest =
          lbraceC :: quoteC :: (t ++ rbraceC :: rest) := by
        rw [encJVal]
        simp only [List.cons_append, List.append_assoc, List.singleton_append]
        rw [ht]
        simp
      rw [hshape, parseFlatVal_cons_brace,
        if_neg (by decide : ¬ quoteC = rbraceC)]
      have hback : quoteC :: (t ++ rbraceC :: rest) =
          encMembersStr (kv :: fields2) ++ rbraceC :: rest := by
        rw [ht]
        rfl
      rw [hback]
      rw [parseMembersStr_enc (kv :: fields2) rest _ (List.cons_ne_nil _ _) (by
        have h1 := encMembersStr_length_ge (kv :: fields2)
        simp only [List.length_append, List.length_cons] at h1 ⊢
        omega)]
      rfl

theorem parsePayloadMembers_enc :
    ∀ (p : Payload) (rest : List Char) (fuel : Nat),
      p ≠ [] → p.length ≤ fuel →
      parsePayloadMembers fuel (encPayloadMembers p ++ rbraceC :: rest) =
        some (p, rest) := by
  intro p
  induction p with
  | nil => intro rest fuel h _; exact absurd rfl h
  | cons kv p ih =>
    intro rest fuel _ hlen
    obtain ⟨k, v⟩ := kv
    cases fuel with
    | zero => simp at hlen
    | succ f =>
      cases p with
      | nil =>
        have hshape : encPayloadMembers [(k, v)] ++ rbraceC :: rest =
            encStr k ++ ':' :: (encJVal v ++ rbraceC :: rest) := by
          rw [encPayloadMembers_single]
          simp [List.append_assoc]
        rw [hshape]
        simp only [parsePayloadMembers, parseKeyStr_enc, expectCh_hit,
          parseFlatVal_enc]
        simp [show ¬ rbraceC = ',' by decide]
      | cons kv2 p2 =>
        have hih := ih rest f (List.cons_ne_nil _ _) (by
          simp only [List.length_cons] at hlen ⊢
          omega)
        have hshape : encPayloadMembers ((k, v) :: kv2 :: p2) ++ rbraceC :: rest =
            encStr k ++ ':' :: (encJVal v ++ ',' ::
              (encPayloadMembers (kv2 :: p2) ++ rbraceC :: rest)) := by
          rw [encPayloadMembers_cons2]
          simp [List.append_assoc]
        rw [hshape]
        simp only [parsePayloadMembers, parseKeyStr_enc, expectCh_hit,
          parseFlatVal_enc]
        simp [hih]

theorem encPayloadMembers_length_ge (p : Payload) :
    p.length ≤ (encPayloadMembers p).length := by
  induction p with
  | nil => simp [encPayloadMembers]
  | cons kv p ih =>
    obtain ⟨k, v⟩ := kv
    cases p with
    | nil =>
      rw [encPayloadMembers_single]
      have := encStr_length_ge_two k
      simp only [List.length_cons, List.length_append, List.length_nil]
      omega
    | cons kv2 p2 =>
      rw [encPayloadMembers_cons2]
      have := encStr_length_ge_two k
      simp only [List.length_cons, List.length_append] at ih ⊢
      omega

theorem parseDataJson_cons (y : Char) (cs2 : List Char) :
    parseDataJson (lbraceC :: y :: cs2) =
      if y = rbraceC then (if cs2.isEmpty then some [] else none)
      else
        match parsePayloadMembers ((y :: cs2).length + 1) (y :: cs2) with
        | some (p, r) => if r.isEmpty then some p else none
        | none => none := rfl

/-- `JSON.parse` recovers every payload `JSON.stringify` emits. -/
theorem parseDataJson_enc (p : Payload) :
    parseDataJson (encPayload p) = some p := by
  cases p with
  | nil => decide
  | cons kv p2 =>
    obtain ⟨t, ht⟩ := encPayloadMembers_cons_head kv p2
    have hshape : encPayload (kv :: p2) =
        lbraceC :: quoteC :: (t ++ [rbraceC]) := by
      rw [encPayload]
      simp only [List.cons_append, List.append_assoc, List.singleton_append]
      rw [ht]
      simp
    rw [hshape, parseDataJson_cons,
      if_neg (by decide : ¬ quoteC = rbraceC)]
    have hback : quoteC :: (t ++ [rbraceC]) =
        encPayloadMembers (kv :: p2) ++ rbraceC :: [] := by
      rw [ht]
      rfl
    rw [hback]
    rw [parsePayloadMembers_enc (kv :: p2) [] _ (List.cons_ne_nil _ _) (by
      have h1 := encPayloadMembers_length_ge (kv :: p2)
      simp only [List.length_append, List.length_cons] at h1 ⊢
      omega)]
    rfl

/-! Part 3: wire framing.  The serialized event splits into exactly two
header lines and a blank line, because the JSON payload text contains no
raw newline. -/

theorem hexDigitChar_ne_nl (n : Nat) : hexDigitChar n ≠ '\n' := by
  rcases Nat.lt_or_ge n 16 with h | h
  · exact (by decide : ∀ m < 16, hexDigitChar m ≠ '\n') n h
  · unfold hexDigitChar
    rw [List.getD_eq_default _ _ (by
      simpa using h)]
    decide

theorem escChar_no_nl (c : Char) : '\n' ∉ escChar c := by
  intro hmem
  unfold escChar at hmem
  repeat' split at hmem
  case _ => exact absurd hmem (by decide)
  case _ => exact absurd hmem (by decide)
  case _ => exact absurd hmem (by decide)
  case _ => exact absurd hmem (by decide)
  case _ => exact absurd hmem (by decide)
  case _ => exact absurd hmem (by decide)
  case _ => exact absurd hmem (by decide)
  case _ =>
    simp only [List.mem_cons, List.not_mem_nil, or_false] at hmem
    rcases hmem with h | h | h | h | h | h
    · exact absurd h (by decide)
    · exact absurd h (by decide)
    · exact absurd h (by decide)
    · exact absurd h (by decide)
    · exact hexDigitChar_ne_nl _ h.symm
    · exact hexDigitChar_ne_nl _ h.symm
  case _ h8 =>
    simp only [List.mem_singleton] at hmem
    subst hmem
    exact h8 (by decide)

theorem encStrBody_no_nl (s : List Char) : '\n' ∉ encStrBody s := by
  induction s with
  | nil => simp [encStrBody]
  | cons c cs ih =>
    rw [encStrBody]
    intro hmem
    rcases List.mem_append.mp hmem with h | h
    · exact escChar_no_nl c h
    · exact ih h

theorem encStr_no_nl (s : String) : '\n' ∉ encStr s := by
  unfold encStr
  intro hmem
  rcases List.mem_cons.mp hmem with h | h
  · exact absurd h (by decide)
  · rcases List.mem_append.mp h with h | h
    · exact encStrBody_no_nl s.data h
    · exact absurd (List.mem_singleton.mp h) (by decide)

theorem encMembersStr_no_nl (fields : List (String × String)) :
    '\n' ∉ encMembersStr fields := by
  induction fields with
  | nil => simp [encMembersStr]
  | cons kv fields ih =>
    obtain ⟨k, v⟩ := kv
    cases fields with
    | nil =>
      rw [encMembersStr_single]
      intro hmem
      rcases List.mem_append.mp hmem with h | h
      · exact encStr_no_nl k h
      · rcases List.mem_cons.mp h with h | h
        · exact absurd h (by decide)
        · exact encStr_no_nl v h
    | cons kv2 fields2 =>
      rw [encMembersStr_cons2]
      intro hmem
      rcases List.mem_append.mp hmem with h | h
      · rcases List.mem_append.mp h with h | h
        · exact encStr_no_nl k h
        · rcases List.mem_cons.mp h with h | h
          · exact absurd h (by decide)
          · exact encStr_no_nl v h
      · rcases List.mem_cons.mp h with h | h
        · exact absurd h (by decide)
        · exact ih h

theorem encJVal_no_nl (v : JVal) : '\n' ∉ encJVal v := by
  cases v with
  | s str => exact encStr_no_nl str
  | o fields =>
    rw [encJVal]
    intro hmem
    rcases List.mem_cons.mp hmem with h | h
    · exact absurd h (by decide)
    · rcases List.mem_append.mp h with h | h
      · exact encMembersStr_no_nl fields h
      · exact absurd (List.mem_singleton.mp h) (by decide)

theorem encPayloadMembers_no_nl (p : Payload) : '\n' ∉ encPayloadMembers p := by
  induction p with
  | nil => simp [encPayloadMembers]
  | cons kv p ih =>
    obtain ⟨k, v⟩ := kv
    cases p with
    | nil =>
      rw [encPayloadMembers_single]
      intro hmem
      rcases List.mem_append.mp hmem with h | h
      · exact encStr_no_nl k h
      · rcases List.mem_cons.mp h with h | h
        · exact absurd h (by decide)
        · exact encJVal_no_nl v h
    | cons kv2 p2 =>
      rw [encPayloadMembers_cons2]
      intro hmem
      rcases List.mem_append.mp hmem with h | h
      · rcases List.mem_append.mp h with h | h
        · exact encStr_no_nl k h
        · rcases List.mem_cons.mp h with h | h
          · exact absurd h (by decide)
          · exact encJVal_no_nl v h
      · rcases List.mem_cons.mp h with h | h
        · exact absurd h (by decide)
        · exact ih h

theorem encPayload_no_nl (p : Payload) : '\n' ∉ encPayload p := by
  rw [encPayload]
  intro hmem
  rcases List.mem_cons.mp hmem with h | h
  · exact absurd h (by decide)
  · rcases List.mem_append.mp h with h | h
    · exact encPayloadMembers_no_nl p h
    · exact absurd (List.mem_singleton.mp h) (by decide)

theorem splitOnChar_ne_nil (sep : Char) (l : List Char) :
    splitOnChar sep l ≠ [] := by
  induction l with
  | nil => simp [splitOnChar]
  | cons c cs ih =>
    cases h : splitOnChar sep cs with
    | nil =>
      rw [splitOnChar, h]
      simp
    | cons x t =>
      rw [splitOnChar, h]
      show ¬ (if c = sep then [] :: x :: t else (c :: x) :: t) = []
      split <;> simp

theorem splitOnChar_not_mem (sep : Char) (l : List Char) (hsep : sep ∉ l) :
    splitOnChar sep l = [l] := by
  induction l with
  | nil => rfl
  | cons c cs ih =>
    have hc : ¬ c = sep := fun h => hsep (by rw [h]; exact List.mem_cons_self _ _)
    have hcs : sep ∉ cs := fun h => hsep (List.mem_cons_of_mem _ h)
    rw [splitOnChar, ih hcs]
    simp [hc]

theorem splitOnChar_append (sep : Char) (l r : List Char) (hsep : sep ∉ l) :
    splitOnChar sep (l ++ sep :: r) = l :: splitOnChar sep r := by
  induction l with
  | nil =>
    rw [List.nil_append, splitOnChar]
    obtain ⟨x, t, heq⟩ := List.exists_cons_of_ne_nil (splitOnChar_ne_nil sep r)
    rw [heq]
    simp [← heq]
  | cons c cs ih =>
    have hc : ¬ c = sep := fun h => hsep (by rw [h]; exact List.mem_cons_self _ _)
    have hcs : sep ∉ cs := fun h => hsep (List.mem_cons_of_mem _ h)
    rw [List.cons_append, splitOnChar, ih hcs]
    simp [hc]

theorem isPrefixOf_append_self (l t : List Char) :
    l.isPrefixOf (l ++ t) = true :=
  List.isPrefixOf_iff_prefix.mpr (List.prefix_append l t)

theorem sseFold_cons (line : List Char) (rest : List (List Char))
    (curEv curDat : Option (List Char)) (acc : List (String × Payload)) :
    sseFold (line :: rest) curEv curDat acc =
      (if "event: ".data.isPrefixOf line then
        sseFold rest (some (jsTrim (line.drop 7))) curDat acc
      else if "data: ".data.isPrefixOf line then
        sseFold rest curEv (some (line.drop 6)) acc
      else if line.isEmpty && truthyOpt curEv && truthyOpt curDat then
        match curEv, curDat with
        | some ev, some dat =>
          match parseDataJson dat with
          | some p => sseFold rest none none (acc ++ [(String.mk ev, p)])
          | none => sseFold rest none none acc
        | _, _ => sseFold rest curEv curDat acc
      else sseFold rest curEv curDat acc) := rfl

/-- Framing core: the serialized two-header-plus-blank-line block parses
back to exactly one `(type, data)` event. -/
theorem parseSSEStream_frame (tag : List Char) (pl : Payload)
    (htagnl : '\n' ∉ tag) (htagtrim : jsTrim tag = tag) (htagne : tag ≠ []) :
    parseSSEStream (String.mk (("event: ".data ++ tag) ++ '\n' ::
      (("data: ".data ++ encPayload pl) ++ '\n' :: '\n' :: []))) =
      [(String.mk tag, pl)] := by
  have h1 : '\n' ∉ "event: ".data ++ tag := by
    intro h
    rcases List.mem_append.mp h with h | h
    · exact absurd h (by decide)
    · exact htagnl h
  have h2 : '\n' ∉ "data: ".data ++ encPayload pl := by
    intro h
    rcases List.mem_append.mp h with h | h
    · exact absurd h (by decide)
    · exact encPayload_no_nl pl h
  unfold parseSSEStream
  rw [show (String.mk (("event: ".data ++ tag) ++ '\n' ::
      (("data: ".data ++ encPayload pl) ++ '\n' :: '\n' :: []))).data =
    ("event: ".data ++ tag) ++ '\n' ::
      (("data: ".data ++ encPayload pl) ++ '\n' :: '\n' :: []) from rfl]
  rw [splitOnChar_append '\n' _ _ h1, splitOnChar_append '\n' _ _ h2,
    show splitOnChar '\n' ('\n' :: []) = [[], []] from rfl]
  rw [show (((("event: ".data ++ tag)) :: ("data: ".data ++ encPayload pl) ::
      [[], []]).dropLast) =
    [("event: ".data ++ tag), ("data: ".data ++ encPayload pl), []] from rfl]
  have hdrop1 : (("event: ".data ++ tag)).drop 7 = tag :=
    List.drop_left "event: ".data tag
  have hdrop2 : (("data: ".data ++ encPayload pl)).drop 6 = encPayload pl :=
    List.drop_left "data: ".data (encPayload pl)
  have hpre2a : "event: ".data.isPrefixOf ("data: ".data ++ encPayload pl)
      = false := rfl
  have hempty : tag.isEmpty = false := by
    cases tag with
    | nil => exact absurd rfl htagne
    | cons a t => rfl
  have htruthy : truthyOpt (some tag) = true := by
    simp [truthyOpt, hempty]
  rw [sseFold_cons, if_pos (isPrefixOf_append_self "event: ".data tag),
    hdrop1, htagtrim]
  rw [sseFold_cons, if_neg (by rw [hpre2a]; exact Bool.false_ne_true),
    if_pos (isPrefixOf_append_self "data: ".data (encPayload pl)), hdrop2]
  rw [sseFold_cons,
    if_neg (by decide : ¬ ("event: ".data.isPrefixOf ([] : List Char) = true)),
    if_neg (by decide : ¬ ("data: ".data.isPrefixOf ([] : List Char) = true)),
    if_pos (by rw [htruthy]; rfl)]
  show (match parseDataJson (encPayload pl) with
    | some p => sseFold [] none none ([] ++ [(String.mk tag, p)])
    | none => sseFold [] none none []) = [(String.mk tag, pl)]
  rw [parseDataJson_enc pl]
  rfl

/-- The frame lemma restated over the association the serializer
produces. -/
theorem parseSSEStream_frame_str (tg : String) (pl : Payload)
    (hnl : '\n' ∉ tg.data) (htrim : jsTrim tg.data = tg.data)
    (hne : tg.data ≠ []) :
    parseSSEStream (String.mk ("event: ".data ++ tg.data ++ '\n' ::
      "data: ".data ++ encPayload pl ++ ['\n', '\n'])) = [(tg, pl)] := by
  have hform : ("event: ".data ++ tg.data ++ '\n' ::
      "data: ".data ++ encPayload pl ++ ['\n', '\n']) =
      (("event: ".data ++ tg.data) ++ '\n' ::
        (("data: ".data ++ encPayload pl) ++ '\n' :: '\n' :: [])) := by
    simp [List.append_assoc]
  rw [hform]
  exact parseSSEStream_frame tg.data pl hnl htrim hne

/-- C7: serializing any ChatEvent to the wire format and parsing the text
back through the client stream parser yields exactly one event with the
same type tag and an equal data payload. -/
theorem sse_roundtrip (e : ChatEvent) :
    parseSSEStream (serializeSSE e) = [(eventTag e, eventPayload e)] := by
  cases e with
  | session sid =>
    exact parseSSEStream_frame_str "session" _ (by decide) (by decide) (by decide)
  | content_delta t =>
    exact parseSSEStream_frame_str "content_delta" _ (by decide) (by decide)
      (by decide)
  | tool_use_start i t inp =>
    exact parseSSEStream_frame_str "tool_use_start" _ (by decide) (by decide)
      (by decide)
  | tool_use_end i t =>
    exact parseSSEStream_frame_str "tool_use_end" _ (by decide) (by decide)
      (by decide)
  | thinking_start =>
    exact parseSSEStream_frame_str "thinking_start" _ (by decide) (by decide)
      (by decide)
  | thinking_end =>
    exact parseSSEStream_frame_str "thinking_end" _ (by decide) (by decide)
      (by decide)
  | message_end i =>
    exact parseSSEStream_frame_str "message_end" _ (by decide) (by decide)
      (by decide)
  | done sid =>
    exact parseSSEStream_frame_str "done" _ (by decide) (by decide) (by decide)
  | error m c =>
    exact parseSSEStream_frame_str "error" _ (by decide) (by decide) (by decide)

end ProjectChat
